/-
Formal verification of the Resume-Patch LangGraph patch engine.

This file gives a shallow embedding, in Lean 4, of the patch engine and the
workflow state machine of the Resume-Patch repository (JavaScript), and proves
or refutes the claims of its natural-language specification.

Modelling conventions, used throughout:
  * JavaScript strings are Lean `String`s; the character-level operations
    (`toLowerCase`, `includes`, `trim`, `split`, `parseInt`) are re-implemented
    over `String.data` so that every definition reduces in the kernel.
    `toLowerCase` is modelled on the ASCII range (`Char.toLower`), which agrees
    with JavaScript on every string occurring in this code base.
  * A JavaScript value that may be `undefined` is an `Option`; reading a
    property of `undefined` (a TypeError in JS) is an `Except.error`.
  * JavaScript exceptions are `Except String` values, the catch blocks of the
    source are explicit `match`es on those values.
  * External collaborators (the OpenAI classifier calls, `fetch`, `Math.random`)
    are parameters of the embedding, universally quantified in the theorems.
-/
import Mathlib

namespace ResumePatch

/-! ## JavaScript string primitives -/

/-- JS whitespace characters relevant to `trim`, `\s` classes and `parseInt`
(ASCII subset: space, tab, newline, carriage return, vertical tab, form feed). -/
def isJsWhitespace (c : Char) : Bool :=
  c = ' ' || c = '\t' || c = '\n' || c = '\r' || c = '\x0b' || c = '\x0c'

/-- JS `String.prototype.toLowerCase`, ASCII range. -/
def jsToLower (s : String) : String :=
  String.mk (s.data.map Char.toLower)

/-- JS `String.prototype.trim` (ASCII whitespace). -/
def jsTrim (s : String) : String :=
  String.mk (((s.data.dropWhile isJsWhitespace).reverse.dropWhile isJsWhitespace).reverse)

/-- Does `haystack` start with `needle` (character lists)? -/
def startsSeq : List Char → List Char → Bool
  | [], _ => true
  | _ :: _, [] => false
  | a :: as, b :: bs => a = b && startsSeq as bs

/-- Does `haystack` contain `needle` as a contiguous subsequence?
Models JS `String.prototype.includes`; an empty needle is contained
in every string, as in JS. -/
def containsSeq (needle : List Char) : List Char → Bool
  | [] => startsSeq needle []
  | b :: bs => startsSeq needle (b :: bs) || containsSeq needle bs

/-- JS `haystack.includes(needle)`. -/
def jsIncludes (haystack needle : String) : Bool :=
  containsSeq needle.data haystack.data

/-- Split on a single separator character, keeping empty pieces,
as JS `s.split('\n')` does. -/
def splitCharAux (sep : Char) (acc : List Char) : List Char → List (List Char)
  | [] => [acc.reverse]
  | c :: cs =>
    if c = sep then acc.reverse :: splitCharAux sep [] cs
    else splitCharAux sep (c :: acc) cs

/-- JS `s.split(sep)` for a one-character separator. -/
def jsSplitChar (sep : Char) (s : String) : List String :=
  (splitCharAux sep [] s.data).map String.mk

/-- Maximal runs of characters satisfying `keep`; models
JS `s.split(/[^class]+/).filter(Boolean)`. -/
def keptRunsAux (keep : Char → Bool) (acc : List Char) : List Char → List (List Char)
  | [] => if acc.isEmpty then [] else [acc.reverse]
  | c :: cs =>
    if keep c then keptRunsAux keep (c :: acc) cs
    else if acc.isEmpty then keptRunsAux keep [] cs
    else acc.reverse :: keptRunsAux keep [] cs

/-- JS `s.split(regexOfNonClassChars).filter(Boolean)`. -/
def jsSplitKeep (keep : Char → Bool) (s : String) : List String :=
  (keptRunsAux keep [] s.data).map String.mk

/-- JS `s.join(sep)` over a list of strings. -/
def jsJoin (sep : String) : List String → String
  | [] => ""
  | [x] => x
  | x :: y :: rest => x ++ sep ++ jsJoin sep (y :: rest)

def isDigitChar (c : Char) : Bool := '0' ≤ c && c ≤ '9'

def isHexDigitChar (c : Char) : Bool :=
  isDigitChar c || ('a' ≤ c && c ≤ 'f') || ('A' ≤ c && c ≤ 'F')

def hexDigitVal (c : Char) : Nat :=
  if isDigitChar c then c.toNat - '0'.toNat
  else if 'a' ≤ c && c ≤ 'f' then c.toNat - 'a'.toNat + 10
  else c.toNat - 'A'.toNat + 10

def digitsToNat (base : Nat) : List Char → Nat → Nat
  | [], acc => acc
  | c :: cs, acc => digitsToNat base cs (acc * base + hexDigitVal c)

/-- JS `parseInt(s)` (radix 10, or 16 after a `0x`/`0X` prefix): skip leading
whitespace, optional sign, then the longest digit prefix; `none` models `NaN`. -/
def jsParseInt (s : String) : Option Int :=
  let l := s.data.dropWhile isJsWhitespace
  let signAndRest : Bool × List Char :=
    match l with
    | '-' :: rest => (true, rest)
    | '+' :: rest => (false, rest)
    | rest => (false, rest)
  let neg := signAndRest.1
  let body := signAndRest.2
  let magnitude : Option Nat :=
    match body with
    | '0' :: 'x' :: rest =>
      let ds := rest.takeWhile isHexDigitChar
      if ds.isEmpty then none else some (digitsToNat 16 ds 0)
    | '0' :: 'X' :: rest =>
      let ds := rest.takeWhile isHexDigitChar
      if ds.isEmpty then none else some (digitsToNat 16 ds 0)
    | rest =>
      let ds := rest.takeWhile isDigitChar
      if ds.isEmpty then none else some (digitsToNat 10 ds 0)
  magnitude.map (fun n => if neg then -(n : Int) else (n : Int))

/-- Helper for `jsSetList`: drop elements whose value was already seen. -/
def jsSetListAux (seen : List String) : List String → List String
  | [] => []
  | x :: xs => if x ∈ seen then jsSetListAux seen xs else x :: jsSetListAux (x :: seen) xs

/-- Insertion-order list of the distinct elements of `l`;
models iterating a JS `Set` built from `l`. -/
def jsSetList (l : List String) : List String := jsSetListAux [] l

/-! ## Skill groups, case-insensitive dedup, and the Category Consolidator
(apply-patches, part_004: `dedupeCaseInsensitive`, `calculateCategorySimilarity`,
`enforceCategoryLimit`, `stringifyGroupedSkills`, `extractGroupedSkillsText`). -/

/-- A JSON-Resume skill group `{ name, keywords[] }`.  A missing or non-array
`keywords` field is modelled as `[]`: every read site in the source guards with
`Array.isArray(...) ? ... : []` or re-assigns `[]`, so the two are
observationally equal there. -/
structure SkillGroup where
  name : String
  keywords : List String
deriving DecidableEq, Repr

/-- Helper for `dedupeCaseInsensitive`: the `seen` set holds lower-cased keys. -/
def dedupeCaseInsensitiveAux (seen : List String) : List String → List String
  | [] => []
  | v :: rest =>
    let key := jsToLower v
    if key ∈ seen then dedupeCaseInsensitiveAux seen rest
    else v :: dedupeCaseInsensitiveAux (key :: seen) rest

/-- `dedupeCaseInsensitive(arr)`: keep the first occurrence of each
case-insensitive value. -/
def dedupeCaseInsensitive (arr : List String) : List String :=
  dedupeCaseInsensitiveAux [] arr

/-- `calculateCategorySimilarity(cat1, cat2)`: Jaccard similarity of the
lower-cased keyword sets plus a `0.2` name-containment bonus.  The source
computes with IEEE doubles; here exact rationals.  The only divergence is
`0/0` (JS `NaN`, here `0`), and no theorem below depends on the numeric value
of a score. -/
def calculateCategorySimilarity (cat1 cat2 : SkillGroup) : ℚ :=
  let keywords1 := jsSetList (cat1.keywords.map jsToLower)
  let keywords2 := jsSetList (cat2.keywords.map jsToLower)
  let inter := keywords1.filter (fun k => k ∈ keywords2)
  let union := jsSetList (keywords1 ++ keywords2)
  let jaccardSim : ℚ := (inter.length : ℚ) / (union.length : ℚ)
  let name1 := jsToLower cat1.name
  let name2 := jsToLower cat2.name
  let nameBonus : ℚ := if jsIncludes name1 name2 || jsIncludes name2 name1 then 2/10 else 0
  jaccardSim + nameBonus

/-- The `for (const existing of keptCategories)` loop of `enforceCategoryLimit`:
index of the kept category with the strictly largest similarity to `candidate`
(first index wins ties; initial best is index `0` with score `0`). -/
def bestCategoryIdxAux (candidate : SkillGroup) :
    List SkillGroup → Nat → Nat → ℚ → Nat
  | [], _, bestIdx, _ => bestIdx
  | g :: gs, i, bestIdx, bestScore =>
    let score := calculateCategorySimilarity candidate g
    if bestScore < score then bestCategoryIdxAux candidate gs (i + 1) i score
    else bestCategoryIdxAux candidate gs (i + 1) bestIdx bestScore

def bestCategoryIdx (candidate : SkillGroup) (kept : List SkillGroup) : Nat :=
  bestCategoryIdxAux candidate kept 0 0 0

/-- One iteration of the `for (const candidate of mergeCandidates)` loop:
merge `candidate`, case-insensitively deduplicated, into the most similar kept
category (in the source this mutates `bestMatch.keywords` in place). -/
def mergeCandidate (kept : List SkillGroup) (candidate : SkillGroup) : List SkillGroup :=
  let i := bestCategoryIdx candidate kept
  let best := kept.getD i ⟨"", []⟩
  kept.set i { best with keywords := dedupeCaseInsensitive (best.keywords ++ candidate.keywords) }

/-- `enforceCategoryLimit(groups, maxCategories)`: sort descending by keyword
count (JS `sort` is stable, hence the stable `insertionSort`), keep the top
`maxCategories - 1` groups, merge every remaining group into its most similar
kept group. -/
def enforceCategoryLimit (groups : List SkillGroup) (maxCategories : Nat) : List SkillGroup :=
  if groups.length ≤ maxCategories then groups
  else
    let sortedGroups :=
      List.insertionSort (fun a b => b.keywords.length ≤ a.keywords.length) groups
    let keptCategories := sortedGroups.take (maxCategories - 1)
    let mergeCandidates := sortedGroups.drop (maxCategories - 1)
    mergeCandidates.foldl mergeCandidate keptCategories

/-- The multiset of all keywords of all groups (the quantity the spec claims
is preserved by consolidation). -/
def kwMultiset (groups : List SkillGroup) : Multiset String :=
  ((groups.map SkillGroup.keywords).flatten : List String)

/-- `s` occurs, case-insensitively, among the keywords of `groups`. -/
def lowerKwMem (groups : List SkillGroup) (s : String) : Prop :=
  ∃ g ∈ groups, ∃ k ∈ g.keywords, jsToLower k = s

/-! ### Lemmas about the consolidator -/

theorem bestCategoryIdxAux_spec (c : SkillGroup) :
    ∀ (gs : List SkillGroup) (i bestIdx : Nat) (bestScore : ℚ),
      bestCategoryIdxAux c gs i bestIdx bestScore = bestIdx ∨
        (i ≤ bestCategoryIdxAux c gs i bestIdx bestScore ∧
          bestCategoryIdxAux c gs i bestIdx bestScore < i + gs.length) := by
  intro gs
  induction gs with
  | nil => intro i b sc; exact Or.inl rfl
  | cons g gs ih =>
    intro i b sc
    simp only [bestCategoryIdxAux]
    by_cases h : sc < calculateCategorySimilarity c g
    · simp only [if_pos h]
      rcases ih (i + 1) i (calculateCategorySimilarity c g) with h1 | h1
      · right; rw [h1]; simp only [List.length_cons]; omega
      · right; simp only [List.length_cons]; omega
    · simp only [if_neg h]
      rcases ih (i + 1) b sc with h1 | h1
      · left; exact h1
      · right; simp only [List.length_cons]; omega

theorem bestCategoryIdx_lt (c : SkillGroup) (kept : List SkillGroup) (hne : kept ≠ []) :
    bestCategoryIdx c kept < kept.length := by
  have h := bestCategoryIdxAux_spec c kept 0 0 0
  have hlen : 0 < kept.length := List.length_pos.mpr hne
  unfold bestCategoryIdx
  rcases h with h | h
  · rw [h]; exact hlen
  · omega

theorem set_getD_self : ∀ (l : List SkillGroup) (i : Nat) (d : SkillGroup),
    i < l.length → l.set i (l.getD i d) = l := by
  intro l
  induction l with
  | nil => intro i d h; simp at h
  | cons x xs ih =>
    intro i d h
    cases i with
    | zero => simp [List.getD]
    | succ n =>
      simp only [List.set, List.getD, List.get?, List.length_cons] at *
      rw [ih n d (by omega)]

theorem mergeCandidate_def (kept : List SkillGroup) (c : SkillGroup) :
    mergeCandidate kept c =
      kept.set (bestCategoryIdx c kept)
        { kept.getD (bestCategoryIdx c kept) ⟨"", []⟩ with
          keywords := dedupeCaseInsensitive
            ((kept.getD (bestCategoryIdx c kept) ⟨"", []⟩).keywords ++ c.keywords) } := rfl

theorem mergeCandidate_eq_self (kept : List SkillGroup) (c : SkillGroup)
    (hne : kept ≠ [])
    (h : ∀ i, i < kept.length →
      dedupeCaseInsensitive ((kept.getD i ⟨"", []⟩).keywords ++ c.keywords)
        = (kept.getD i ⟨"", []⟩).keywords) :
    mergeCandidate kept c = kept := by
  rw [mergeCandidate_def]
  have hi := bestCategoryIdx_lt c kept hne
  rw [h _ hi]
  have hbest : { kept.getD (bestCategoryIdx c kept) ⟨"", []⟩ with
      keywords := (kept.getD (bestCategoryIdx c kept) ⟨"", []⟩).keywords }
      = kept.getD (bestCategoryIdx c kept) ⟨"", []⟩ := rfl
  rw [hbest, set_getD_self kept _ _ hi]

theorem dedupeCaseInsensitiveAux_lower_mem (s : String) :
    ∀ (l : List String) (seen : List String),
      (∃ k ∈ dedupeCaseInsensitiveAux seen l, jsToLower k = s) ↔
        (s ∉ seen ∧ ∃ k ∈ l, jsToLower k = s) := by
  intro l
  induction l with
  | nil => intro seen; simp [dedupeCaseInsensitiveAux]
  | cons v rest ih =>
    intro seen
    simp only [dedupeCaseInsensitiveAux]
    by_cases hkey : jsToLower v ∈ seen
    · simp only [if_pos hkey, ih seen]
      constructor
      · rintro ⟨hnot, k, hk, hks⟩
        exact ⟨hnot, k, List.mem_cons_of_mem _ hk, hks⟩
      · rintro ⟨hnot, k, hk, hks⟩
        rcases List.mem_cons.mp hk with rfl | hk2
        · exact absurd (hks ▸ hkey) hnot
        · exact ⟨hnot, k, hk2, hks⟩
    · simp only [if_neg hkey, List.mem_cons]
      constructor
      · rintro ⟨k, hk | hk, hks⟩
        · subst hk
          exact ⟨hks ▸ hkey, k, Or.inl rfl, hks⟩
        · rcases (ih (jsToLower v :: seen)).mp ⟨k, hk, hks⟩ with ⟨hnot, k2, hk2, hk2s⟩
          have hnots : s ∉ seen := fun hs => hnot (List.mem_cons_of_mem _ hs)
          exact ⟨hnots, k2, Or.inr hk2, hk2s⟩
      · rintro ⟨hnot, k, hk | hk, hks⟩
        · subst hk; exact ⟨k, Or.inl rfl, hks⟩
        · by_cases hvs : jsToLower v = s
          · exact ⟨v, Or.inl rfl, hvs⟩
          · have : s ∉ jsToLower v :: seen := by
              intro hmem
              rcases List.mem_cons.mp hmem with h1 | h1
              · exact hvs h1.symm
              · exact hnot h1
            rcases (ih (jsToLower v :: seen)).mpr ⟨this, k, hk, hks⟩ with ⟨k2, hk2, hk2s⟩
            exact ⟨k2, Or.inr hk2, hk2s⟩

theorem dedupeCaseInsensitive_lower_mem (l : List String) (s : String) :
    (∃ k ∈ dedupeCaseInsensitive l, jsToLower k = s) ↔ (∃ k ∈ l, jsToLower k = s) := by
  unfold dedupeCaseInsensitive
  rw [dedupeCaseInsensitiveAux_lower_mem]
  simp

theorem lowerKwMem_append (l1 l2 : List SkillGroup) (s : String) :
    lowerKwMem (l1 ++ l2) s ↔ lowerKwMem l1 s ∨ lowerKwMem l2 s := by
  unfold lowerKwMem
  constructor
  · rintro ⟨g, hg, hk⟩
    rcases List.mem_append.mp hg with h | h
    · exact Or.inl ⟨g, h, hk⟩
    · exact Or.inr ⟨g, h, hk⟩
  · rintro (⟨g, hg, hk⟩ | ⟨g, hg, hk⟩)
    · exact ⟨g, List.mem_append.mpr (Or.inl hg), hk⟩
    · exact ⟨g, List.mem_append.mpr (Or.inr hg), hk⟩

theorem lowerKwMem_of_perm {l1 l2 : List SkillGroup} (h : List.Perm l1 l2) (s : String) :
    lowerKwMem l1 s ↔ lowerKwMem l2 s := by
  unfold lowerKwMem
  constructor
  · rintro ⟨g, hg, hk⟩; exact ⟨g, h.mem_iff.mp hg, hk⟩
  · rintro ⟨g, hg, hk⟩; exact ⟨g, h.mem_iff.mpr hg, hk⟩

/-- Existential over the members of `l.set i v`, split through
`take i ++ v :: drop (i+1)`. -/
theorem lowerKwMem_set (kept : List SkillGroup) (i : Nat) (hi : i < kept.length)
    (v : SkillGroup) (s : String) :
    lowerKwMem (kept.set i v) s ↔
      ((∃ k ∈ v.keywords, jsToLower k = s) ∨
        (lowerKwMem (kept.take i) s ∨ lowerKwMem (kept.drop (i + 1)) s)) := by
  rw [List.set_eq_take_cons_drop v hi]
  rw [show kept.take i ++ v :: kept.drop (i + 1)
        = kept.take i ++ [v] ++ kept.drop (i + 1) by simp]
  rw [lowerKwMem_append, lowerKwMem_append]
  unfold lowerKwMem
  simp only [List.mem_singleton]
  constructor
  · rintro ((h | ⟨g, rfl, hk⟩) | h)
    · exact Or.inr (Or.inl h)
    · exact Or.inl hk
    · exact Or.inr (Or.inr h)
  · rintro (hk | (h | h))
    · exact Or.inl (Or.inr ⟨v, rfl, hk⟩)
    · exact Or.inl (Or.inl h)
    · exact Or.inr h

theorem lowerKwMem_split (kept : List SkillGroup) (i : Nat) (hi : i < kept.length)
    (s : String) :
    lowerKwMem kept s ↔
      ((∃ k ∈ (kept.getD i ⟨"", []⟩).keywords, jsToLower k = s) ∨
        (lowerKwMem (kept.take i) s ∨ lowerKwMem (kept.drop (i + 1)) s)) := by
  conv_lhs => rw [← set_getD_self kept i ⟨"", []⟩ hi]
  exact lowerKwMem_set kept i hi _ s

theorem mergeCandidate_lowerKwMem (kept : List SkillGroup) (c : SkillGroup)
    (hne : kept ≠ []) (s : String) :
    lowerKwMem (mergeCandidate kept c) s ↔
      lowerKwMem kept s ∨ (∃ k ∈ c.keywords, jsToLower k = s) := by
  rw [mergeCandidate_def]
  have hi := bestCategoryIdx_lt c kept hne
  rw [lowerKwMem_set kept _ hi _ s, lowerKwMem_split kept _ hi s]
  have hv : (∃ k ∈ dedupeCaseInsensitive
        ((kept.getD (bestCategoryIdx c kept) ⟨"", []⟩).keywords ++ c.keywords),
          jsToLower k = s) ↔
      ((∃ k ∈ (kept.getD (bestCategoryIdx c kept) ⟨"", []⟩).keywords, jsToLower k = s) ∨
        (∃ k ∈ c.keywords, jsToLower k = s)) := by
    rw [dedupeCaseInsensitive_lower_mem]
    constructor
    · rintro ⟨k, hk, hks⟩
      rcases List.mem_append.mp hk with h | h
      · exact Or.inl ⟨k, h, hks⟩
      · exact Or.inr ⟨k, h, hks⟩
    · rintro (⟨k, hk, hks⟩ | ⟨k, hk, hks⟩)
      · exact ⟨k, List.mem_append.mpr (Or.inl hk), hks⟩
      · exact ⟨k, List.mem_append.mpr (Or.inr hk), hks⟩
  rw [hv]
  constructor
  · rintro ((h | h) | h)
    · exact Or.inl (Or.inl h)
    · exact Or.inr h
    · exact Or.inl (Or.inr h)
  · rintro ((h | h) | h)
    · exact Or.inl (Or.inl h)
    · exact Or.inr h
    · exact Or.inl (Or.inr h)


theorem mergeCandidate_length (kept : List SkillGroup) (c : SkillGroup) :
    (mergeCandidate kept c).length = kept.length := by
  unfold mergeCandidate
  exact List.length_set _ _ _

theorem foldl_mergeCandidate_length :
    ∀ (cs : List SkillGroup) (kept : List SkillGroup),
      (cs.foldl mergeCandidate kept).length = kept.length := by
  intro cs
  induction cs with
  | nil => intro kept; rfl
  | cons c cs ih =>
    intro kept
    simp only [List.foldl_cons]
    rw [ih, mergeCandidate_length]

theorem foldl_mergeCandidate_lowerKwMem :
    ∀ (cs : List SkillGroup) (kept : List SkillGroup), kept ≠ [] → ∀ s,
      lowerKwMem (cs.foldl mergeCandidate kept) s ↔
        (lowerKwMem kept s ∨ lowerKwMem cs s) := by
  intro cs
  induction cs with
  | nil => intro kept _ s; unfold lowerKwMem; simp
  | cons c cs ih =>
    intro kept hne s
    simp only [List.foldl_cons]
    have hne2 : mergeCandidate kept c ≠ [] := by
      intro h
      have := mergeCandidate_length kept c
      rw [h] at this
      exact hne (List.length_eq_zero.mp this.symm)
    rw [ih (mergeCandidate kept c) hne2 s, mergeCandidate_lowerKwMem kept c hne s]
    have hcons : lowerKwMem (c :: cs) s ↔
        ((∃ k ∈ c.keywords, jsToLower k = s) ∨ lowerKwMem cs s) := by
      unfold lowerKwMem
      simp only [List.mem_cons]
      constructor
      · rintro ⟨g, rfl | hg, hk⟩
        · exact Or.inl hk
        · exact Or.inr ⟨g, hg, hk⟩
      · rintro (hk | ⟨g, hg, hk⟩)
        · exact ⟨c, Or.inl rfl, hk⟩
        · exact ⟨g, Or.inr hg, hk⟩
    rw [hcons]
    exact or_assoc

/-! ### Claim C2 -/

/-- Concrete groups for the C2 counterexample: five groups (so consolidation
triggers), where the keyword "a" occurs in several groups. -/
def consGroupA : SkillGroup := ⟨"Alpha", ["a", "b", "c", "d"]⟩

def consGroupB : SkillGroup := ⟨"Beta", ["a", "e", "f"]⟩

def consGroupC : SkillGroup := ⟨"Gamma", ["a", "g"]⟩

def consGroupD : SkillGroup := ⟨"Delta", ["a"]⟩

def consGroupE : SkillGroup := ⟨"Epsilon", ["a"]⟩

def consGroups : List SkillGroup :=
  [consGroupA, consGroupB, consGroupC, consGroupD, consGroupE]

/-- C2, counterexample.  The claim states that consolidation with
`maxSkillGroups = 4` preserves the multiset of all keywords.  It does not:
merging deduplicates case-insensitively, so the five copies of keyword "a"
in `consGroups` collapse to three — the multisets differ (the consolidated
list is exactly `[consGroupA, consGroupB, consGroupC]`, both merge candidates
dissolve into kept groups that already contain "a"). -/
theorem C2_counterexample :
    kwMultiset (enforceCategoryLimit consGroups 4) ≠ kwMultiset consGroups := by
  have h2 : mergeCandidate [consGroupA, consGroupB, consGroupC] consGroupD
      = [consGroupA, consGroupB, consGroupC] :=
    mergeCandidate_eq_self _ _ (by decide) (by decide)
  have h3 : mergeCandidate [consGroupA, consGroupB, consGroupC] consGroupE
      = [consGroupA, consGroupB, consGroupC] :=
    mergeCandidate_eq_self _ _ (by decide) (by decide)
  have h1 : enforceCategoryLimit consGroups 4 = [consGroupA, consGroupB, consGroupC] := by
    simp only [enforceCategoryLimit]
    rw [if_neg (by decide : ¬ (consGroups.length ≤ 4))]
    rw [show List.insertionSort
          (fun a b : SkillGroup => b.keywords.length ≤ a.keywords.length) consGroups
          = consGroups from by decide]
    show ([consGroupD, consGroupE].foldl mergeCandidate
        [consGroupA, consGroupB, consGroupC]) = _
    rw [List.foldl_cons, h2, List.foldl_cons, h3, List.foldl_nil]
  rw [h1]
  decide

/-- C2 (amended): consolidation with `maxSkillGroups = 4` returns at most 4
groups, and preserves the set of keywords up to case: a string occurs
(case-insensitively) among the keywords after consolidation iff it occurred
before.  (The multiset is not preserved: duplicates across merged groups are
collapsed case-insensitively — see the counterexample.) -/
theorem C2_consolidation (groups : List SkillGroup) :
    (enforceCategoryLimit groups 4).length ≤ 4 ∧
      ∀ s, lowerKwMem (enforceCategoryLimit groups 4) s ↔ lowerKwMem groups s := by
  by_cases h : groups.length ≤ 4
  · have hunf : enforceCategoryLimit groups 4 = groups := by
      unfold enforceCategoryLimit; rw [if_pos h]
    rw [hunf]
    exact ⟨h, fun s => Iff.rfl⟩
  · have hlen : 4 < groups.length := Nat.lt_of_not_le h
    have hperm : List.Perm
        (List.insertionSort (fun a b : SkillGroup => b.keywords.length ≤ a.keywords.length)
          groups) groups :=
      List.perm_insertionSort _ groups
    have hslen := hperm.length_eq
    set sorted := List.insertionSort
      (fun a b : SkillGroup => b.keywords.length ≤ a.keywords.length) groups with hsorteddef
    have hkeptlen : (sorted.take (4 - 1)).length = 3 := by
      rw [List.length_take]; omega
    have hkeptne : sorted.take (4 - 1) ≠ [] := by
      intro hnil; rw [hnil] at hkeptlen; simp at hkeptlen
    have hunf : enforceCategoryLimit groups 4
        = (sorted.drop (4 - 1)).foldl mergeCandidate (sorted.take (4 - 1)) := by
      unfold enforceCategoryLimit
      rw [if_neg h]
    rw [hunf]
    constructor
    · rw [foldl_mergeCandidate_length, hkeptlen]; omega
    · intro s
      rw [foldl_mergeCandidate_lowerKwMem _ _ hkeptne s]
      rw [← lowerKwMem_append, List.take_append_drop]
      exact lowerKwMem_of_perm hperm s

/-! ## Category Resolver (part_004 `pickSkillsGroupIndexForKeyword`) -/

/-- Outcome of one OpenAI classifier call: `.err` models a thrown call or a
missing API key (the source `catch` then runs the similarity fallback);
`.ok content` models a completed call whose message content is `content`
(`none` models a missing `choices[0]?.message?.content`). -/
inductive ClassifierResp where
  | err : ClassifierResp
  | ok : Option String → ClassifierResp
deriving DecidableEq, Repr

/-- Character class of the resolver tokenizer: lower-case letters, digits,
dot, plus, hash, slash, hyphen (the input is lower-cased before splitting). -/
def tokenizeClassChar (c : Char) : Bool :=
  ('a' ≤ c && c ≤ 'z') || isDigitChar c || c = '.' || c = '+' || c = '#' || c = '/' || c = '-'

/-- `tokenize(s)` of the similarity fallback: lower-case, split on runs of
characters outside the class, keep the non-empty pieces. -/
def tokenize (s : String) : List String :=
  jsSplitKeep tokenizeClassChar (jsToLower s)

/-- Score contribution of one existing keyword `k` against the new keyword
(`lower` = lower-cased new keyword, `kwTokens` = its token set):
100 exact, 50 substring either way, else 10 per shared token. -/
def keywordScore (kwTokens : List String) (lower : String) (k : String) : Nat :=
  let keywordLower := jsToLower k
  if keywordLower = lower then 100
  else if jsIncludes keywordLower lower || jsIncludes lower keywordLower then 50
  else 10 * ((tokenize k).filter (fun t => t ∈ kwTokens)).length

/-- Score of a whole group: sum over its keywords plus a 25-point bonus when
the group name and the new keyword contain each other. -/
def groupSimilarityScore (kwTokens : List String) (lower : String) (g : SkillGroup) : Nat :=
  (g.keywords.foldl (fun acc k => acc + keywordScore kwTokens lower k) 0) +
    (if jsIncludes (jsToLower g.name) lower || jsIncludes lower (jsToLower g.name)
     then 25 else 0)

/-- The argmax loop of the similarity fallback: strict improvement over a
running best that starts at index 0 with score -1. -/
def bestGroupIdxAux (score : SkillGroup → Nat) :
    List SkillGroup → Nat → Nat → Int → Nat
  | [], _, bestIdx, _ => bestIdx
  | g :: gs, i, bestIdx, bestScore =>
    if bestScore < (score g : Int) then bestGroupIdxAux score gs (i + 1) i (score g)
    else bestGroupIdxAux score gs (i + 1) bestIdx bestScore

def bestGroupIdx (score : SkillGroup → Nat) (list : List SkillGroup) : Nat :=
  bestGroupIdxAux score list 0 0 (-1)

/-- The `for (let i = 0; ...)` exact-membership loop: first group whose
keywords contain `lower` case-insensitively. -/
def firstContainingIdxAux (lower : String) : List SkillGroup → Nat → Option Nat
  | [], _ => none
  | g :: gs, i =>
    if g.keywords.any (fun k => jsToLower k = lower) then some i
    else firstContainingIdxAux lower gs (i + 1)

/-- `response.choices[0]?.message?.content?.trim() || '0'`. -/
def classifierRawIndex (content : Option String) : String :=
  match content with
  | none => "0"
  | some c => if jsTrim c = "" then "0" else jsTrim c

/-- `pickSkillsGroupIndexForKeyword(skills, keyword)` (part_004 lines 169-277).
Decision order: (1) a group already containing the keyword case-insensitively;
(2) the classifier response, `parseInt`-ed, replaced by 0 when `NaN` or
`>= list.length`; (3) on a thrown classifier call, the similarity-scoring
fallback.  The result type is `Int` because the source returns the parsed
classifier index unchanged when it is negative. -/
def pickSkillsGroupIndexForKeyword (resp : ClassifierResp)
    (skills : Option (List SkillGroup)) (keyword : Option String) : Int :=
  let list := skills.getD []
  if list.length = 0 then 0
  else
    let kw := jsTrim (keyword.getD "")
    let lower := jsToLower kw
    match firstContainingIdxAux lower list 0 with
    | some i => (i : Int)
    | none =>
      match resp with
      | ClassifierResp.ok content =>
        match jsParseInt (classifierRawIndex content) with
        | none => 0
        | some ci => if (list.length : Int) ≤ ci then 0 else ci
      | ClassifierResp.err =>
        (bestGroupIdx (groupSimilarityScore (jsSetList (tokenize kw)) lower) list : Int)

/-! ### Lemmas about the resolver -/

theorem bestGroupIdxAux_spec (score : SkillGroup → Nat) :
    ∀ (gs : List SkillGroup) (i bestIdx : Nat) (bestScore : Int),
      bestGroupIdxAux score gs i bestIdx bestScore = bestIdx ∨
        (i ≤ bestGroupIdxAux score gs i bestIdx bestScore ∧
          bestGroupIdxAux score gs i bestIdx bestScore < i + gs.length) := by
  intro gs
  induction gs with
  | nil => intro i b sc; exact Or.inl rfl
  | cons g gs ih =>
    intro i b sc
    simp only [bestGroupIdxAux]
    by_cases h : sc < (score g : Int)
    · simp only [if_pos h]
      rcases ih (i + 1) i (score g) with h1 | h1
      · right; rw [h1]; simp only [List.length_cons]; omega
      · right; simp only [List.length_cons]; omega
    · simp only [if_neg h]
      rcases ih (i + 1) b sc with h1 | h1
      · left; exact h1
      · right; simp only [List.length_cons]; omega

theorem bestGroupIdx_lt (score : SkillGroup → Nat) (l : List SkillGroup) (hne : l ≠ []) :
    bestGroupIdx score l < l.length := by
  have h := bestGroupIdxAux_spec score l 0 0 (-1)
  have hlen : 0 < l.length := List.length_pos.mpr hne
  unfold bestGroupIdx
  rcases h with h | h
  · rw [h]; exact hlen
  · omega

theorem firstContainingIdxAux_lt (lower : String) :
    ∀ (l : List SkillGroup) (i j : Nat),
      firstContainingIdxAux lower l i = some j → i ≤ j ∧ j < i + l.length := by
  intro l
  induction l with
  | nil => intro i j h; simp [firstContainingIdxAux] at h
  | cons g gs ih =>
    intro i j h
    simp only [firstContainingIdxAux] at h
    by_cases hp : g.keywords.any (fun k => jsToLower k = lower)
    · rw [if_pos hp] at h
      injection h with h
      simp only [List.length_cons]; omega
    · rw [if_neg hp] at h
      have := ih (i + 1) j h
      simp only [List.length_cons]; omega

/-! ### Claim C4 -/

/-- C4, counterexample.  The claim states that for every possible classifier
response — including negative index responses — the resolver returns a valid
index.  It does not: with a single group `Backend/[Python]`, a new keyword
"Go", and a classifier response "-1", the resolver returns -1 (the validation
`isNaN(categoryIndex) || categoryIndex >= list.length` misses negative
values), which is not a valid index. -/
theorem C4_counterexample :
    pickSkillsGroupIndexForKeyword (ClassifierResp.ok (some "-1"))
      (some [⟨"Backend", ["Python"]⟩]) (some "Go") < 0 := by
  decide

/-- The classifier response does not parse to a negative index (the hypothesis
under which the validation of the source is complete). -/
def respNonNegative (resp : ClassifierResp) : Prop :=
  match resp with
  | ClassifierResp.err => True
  | ClassifierResp.ok content =>
    match jsParseInt (classifierRawIndex content) with
    | none => True
    | some ci => 0 ≤ ci

/-- C4 (amended): for every non-empty group list, every keyword, and every
classifier response that does not parse to a negative integer (in particular
every non-numeric or too-large response), the resolver returns a valid index
into the group list.  A classifier index that parses to a negative integer is
returned unvalidated — see the counterexample. -/
theorem C4_resolver_valid_index (resp : ClassifierResp)
    (skills : Option (List SkillGroup)) (keyword : Option String)
    (hne : skills.getD [] ≠ []) (hresp : respNonNegative resp) :
    0 ≤ pickSkillsGroupIndexForKeyword resp skills keyword ∧
      pickSkillsGroupIndexForKeyword resp skills keyword
        < ((skills.getD []).length : Int) := by
  have hlen : 0 < (skills.getD []).length := List.length_pos.mpr hne
  unfold pickSkillsGroupIndexForKeyword
  rw [if_neg (by omega)]
  rcases hfind : firstContainingIdxAux (jsToLower (jsTrim (keyword.getD ""))) (skills.getD []) 0
    with _ | i
  · simp only [hfind]
    cases resp with
    | err =>
      have hb := bestGroupIdx_lt
        (groupSimilarityScore (jsSetList (tokenize (jsTrim (keyword.getD ""))))
          (jsToLower (jsTrim (keyword.getD "")))) (skills.getD []) hne
      refine ⟨Int.ofNat_nonneg _, ?_⟩
      exact Int.ofNat_lt.mpr hb
    | ok content =>
      have hresp2 : (match jsParseInt (classifierRawIndex content) with
          | none => True
          | some ci => 0 ≤ ci) := hresp
      rcases hparse : jsParseInt (classifierRawIndex content) with _ | ci
      · simp only [hparse]
        exact ⟨le_refl (0 : Int), by exact_mod_cast hlen⟩
      · rw [hparse] at hresp2
        simp only [hparse]
        by_cases hci : ((skills.getD []).length : Int) ≤ ci
        · rw [if_pos hci]
          exact ⟨le_refl (0 : Int), by exact_mod_cast hlen⟩
        · rw [if_neg hci]
          exact ⟨hresp2, lt_of_not_le hci⟩
  · simp only [hfind]
    have hrange := firstContainingIdxAux_lt _ _ 0 i hfind
    refine ⟨Int.ofNat_nonneg _, ?_⟩
    have hlt : i < (skills.getD []).length := by omega
    exact_mod_cast hlt

/-- Witness for C4: a concrete run through the similarity fallback. -/
theorem C4_resolver_valid_index_witness :
    0 ≤ pickSkillsGroupIndexForKeyword ClassifierResp.err
        (some [⟨"Backend", ["Python"]⟩]) (some "Go") ∧
      pickSkillsGroupIndexForKeyword ClassifierResp.err
        (some [⟨"Backend", ["Python"]⟩]) (some "Go") < 1 := by
  have h := C4_resolver_valid_index ClassifierResp.err
    (some [⟨"Backend", ["Python"]⟩]) (some "Go") (by decide) (by trivial)
  simpa using h

/-! ## Patch Proposals -/

/-- A primitive JSON-Patch operation as synthesized by
`buildJsonPatchOpsForPatch` (part_004): append a keyword to skill group `i`
(an RFC6902 `add` with the append marker on the keywords path), append a
highlight to work entry `i`, or replace the summary of work entry `i`.
The skill-group index is an `Int` because the Category Resolver can produce a
negative index. -/
inductive JsonPatchOp where
  | addSkillKeyword : Int → String → JsonPatchOp
  | addWorkHighlight : Nat → String → JsonPatchOp
  | replaceWorkSummary : Nat → String → JsonPatchOp
deriving DecidableEq, Repr

/-- The `details` record of a Patch Proposal.  Absent properties are `none`. -/
structure PatchDetails where
  action : Option String := none
  value : Option String := none
  category : Option String := none
  reason : Option String := none
  impact : Option String := none
deriving DecidableEq, Repr

/-- A Patch Proposal as produced by the suggestion stage.  `details := none`
models a proposal without a `details` object (reading through it throws in
JS); `jsonPatch` models an optional pre-built structural-op list. -/
structure Patch where
  id : String := ""
  type : String := ""
  priority : Option String := none
  description : String := ""
  details : Option PatchDetails := none
  jsonPatch : Option (List JsonPatchOp) := none
deriving DecidableEq, Repr

/-! ## Deduplicator (src/nodes/suggest-patches.js `deduplicatePatches`) -/

/-- `patch.details.value?.toLowerCase() || patch.description.toLowerCase()`:
reading `.value` on an undefined `details` throws a TypeError. -/
def patchValueKey (p : Patch) : Except String String :=
  match p.details with
  | none => Except.error "Cannot read properties of undefined (reading value)"
  | some d =>
    match d.value with
    | none => Except.ok (jsToLower p.description)
    | some v =>
      if jsToLower v = "" then Except.ok (jsToLower p.description)
      else Except.ok (jsToLower v)

/-- The `patches.some(existing => ...)` scan: is there a proposal at another
position whose value key overlaps `valueKey` as a substring in either
direction?  Short-circuits at the first hit, as `some` does. -/
def someOverlapAux (selfIdx : Nat) (valueKey : String) :
    List (Nat × Patch) → Except String Bool
  | [] => Except.ok false
  | (j, q) :: rest =>
    if j = selfIdx then someOverlapAux selfIdx valueKey rest
    else
      match patchValueKey q with
      | Except.error e => Except.error e
      | Except.ok existingValue =>
        if jsIncludes valueKey existingValue || jsIncludes existingValue valueKey then
          Except.ok true
        else someOverlapAux selfIdx valueKey rest

/-- The `patches.forEach` loop of `deduplicatePatches`: keep a proposal only
when its type+value key is unseen and no other proposal overlaps it. -/
def deduplicatePatchesAux (allP : List (Nat × Patch)) (seen : List String) :
    List (Nat × Patch) → Except String (List Patch)
  | [] => Except.ok []
  | (i, p) :: rest =>
    match patchValueKey p with
    | Except.error e => Except.error e
    | Except.ok valueKey =>
      let key := p.type ++ "_" ++ valueKey
      match someOverlapAux i valueKey allP with
      | Except.error e => Except.error e
      | Except.ok similarKey =>
        if key ∈ seen || similarKey then deduplicatePatchesAux allP seen rest
        else
          match deduplicatePatchesAux allP (key :: seen) rest with
          | Except.error e => Except.error e
          | Except.ok out => Except.ok (p :: out)

/-- `deduplicatePatches(patches)` (suggest-patches.js lines 209-232).
Physical object identity (`existing === patch`) is modelled by list position. -/
def deduplicatePatches (patches : List Patch) : Except String (List Patch) :=
  deduplicatePatchesAux patches.enum [] patches.enum

/-! ### Claim C3 -/

def reactPatch : Patch :=
  { id := "skill_react", type := "add_skill", priority := some "high",
    description := "Add specific technology: React",
    details := some { action := some "add_to_skills_section", value := some "React" } }

def reactLowerPatch : Patch :=
  { id := "skill_react", type := "add_skill", priority := some "high",
    description := "Add specific technology: react",
    details := some { action := some "add_to_skills_section", value := some "react" } }

def reactJsPatch : Patch :=
  { id := "skill_react.js", type := "add_skill", priority := some "high",
    description := "Add specific technology: React.js",
    details := some { action := some "add_to_skills_section", value := some "React.js" } }

/-- C3: on the input `add-skill React, add-skill react, add-skill React.js`
the Deduplicator returns the empty list — not `[React]` as the spec claims.
The `similarKey` scan matches *every* member of an overlap cluster (including
the earliest), so all three proposals are dropped: deduplication deletes every
copy instead of keeping the first. -/
theorem C3_dedup_drops_all :
    deduplicatePatches [reactPatch, reactLowerPatch, reactJsPatch] = Except.ok [] := by
  rfl

/-! ## Approval Gate (src/nodes/approve-patches.js) -/

/-- The four choices of the per-patch prompt. -/
inductive ApprovalChoice where
  | apply
  | skip
  | details
  | pause
deriving DecidableEq, Repr

/-- The two choices of the prompt shown after patch details. -/
inductive DetailChoice where
  | apply
  | skip
deriving DecidableEq, Repr

/-- The four choices of the pause-and-review prompt. -/
inductive ReviewChoice where
  | review
  | approveAll
  | skipAll
  | continueOne
deriving DecidableEq, Repr

/-- One keystroke of the interactive approval session. -/
inductive UserInput where
  | main : ApprovalChoice → UserInput
  | afterDetails : DetailChoice → UserInput
deriving DecidableEq, Repr

/-- `pauseAndReviewAllPatches` as written: approve-all returns `true`,
skip-all returns `false`, review / continue-one-by-one return `null` — a
single boolean handed back to the per-patch loop, not a bulk state
transition.  At its only call site the argument expression `patches` is an
unbound identifier inside `presentSinglePatch`, so this function is
unreachable in the source. -/
def pauseAndReviewAllPatches (choice : ReviewChoice) : Option Bool :=
  match choice with
  | ReviewChoice.review => none
  | ReviewChoice.approveAll => some true
  | ReviewChoice.skipAll => some false
  | ReviewChoice.continueOne => none

/-- `presentSinglePatch(patch, i, n)`: consume user input and decide one
patch.  Choosing `pause` evaluates `pauseAndReviewAllPatches(patches, ...)`
where `patches` is not in scope in `presentSinglePatch` — a `ReferenceError`
(`patches is not defined`) is thrown before the call. -/
def presentSinglePatch (inputs : List UserInput) :
    Except String (Bool × List UserInput) :=
  match inputs with
  | UserInput.main c :: rest =>
    match c with
    | ApprovalChoice.apply => Except.ok (true, rest)
    | ApprovalChoice.skip => Except.ok (false, rest)
    | ApprovalChoice.details =>
      match rest with
      | UserInput.afterDetails d :: rest2 =>
        Except.ok (decide (d = DetailChoice.apply), rest2)
      | _ => Except.error "input stream exhausted"
    | ApprovalChoice.pause => Except.error "patches is not defined"
  | _ => Except.error "input stream exhausted"

/-- The `for` loop of `presentPatchesForApproval`: every patch is presented in
order; approved ones are collected. -/
def presentPatchesForApprovalAux (inputs : List UserInput) :
    List Patch → Except String (List Patch)
  | [] => Except.ok []
  | p :: rest =>
    match presentSinglePatch inputs with
    | Except.error e => Except.error e
    | Except.ok (isApproved, inputs2) =>
      match presentPatchesForApprovalAux inputs2 rest with
      | Except.error e => Except.error e
      | Except.ok approved =>
        Except.ok (if isApproved then p :: approved else approved)

/-- `approvePatchesNode(state)`: empty list short-circuits, auto-apply
approves everything, otherwise the interactive loop runs; an exception is
re-thrown as a `ProcessingError` with a prefixed message. -/
def approvePatchesNode (autoApply : Bool) (inputs : List UserInput)
    (patches : List Patch) : Except String (List Patch) :=
  if patches.isEmpty then Except.ok []
  else if autoApply then Except.ok patches
  else
    match presentPatchesForApprovalAux inputs patches with
    | Except.error e => Except.error ("Failed to get patch approval: " ++ e)
    | Except.ok approved => Except.ok approved

/-! ### Claim C6 -/

/-- C6: choosing the bulk-review outcome does not transition the remaining
proposals — it aborts the whole Approval Gate.  With one pending proposal and
the user choosing option 4 (pause and review), the gate throws: the call
`pauseAndReviewAllPatches(patches, currentIndex - 1)` references the unbound
identifier `patches` inside `presentSinglePatch`, the `ReferenceError`
propagates, and `approvePatchesNode` re-throws it as a `ProcessingError` — so
the proposal ends in neither Applied nor Skipped and
`|Applied| + |Skipped| = 0 ≠ 1`. -/
theorem C6_bulk_review_throws :
    approvePatchesNode false [UserInput.main ApprovalChoice.pause] [reactPatch]
      = Except.error "Failed to get patch approval: patches is not defined" := by
  rfl

/-! ## Workflow State Machine (part_008 workflow.js `createWorkflow`) -/

/-- The channels of the workflow state that the parse retry loop touches.
`errors` has the append-only reducer `(l, r) => l.concat(r || [])`;
`retry_count` and `resume_parsed` are last-value-wins channels. -/
structure WFState where
  errors : List String := []
  retry_count : Nat := 0
  resume_parsed : Bool := false
deriving DecidableEq, Repr

/-- A node return value: the channels present in the returned object
(`none` = key absent, channel untouched). -/
structure WFUpdate where
  errors : Option (List String) := none
  retry_count : Option Nat := none
  resume_parsed : Option Bool := none
deriving DecidableEq, Repr

/-- LangGraph channel application: each key present in the update goes
through its channel reducer. -/
def applyUpdate (s : WFState) (u : WFUpdate) : WFState :=
  { errors := match u.errors with | none => s.errors | some r => s.errors ++ r,
    retry_count := u.retry_count.getD s.retry_count,
    resume_parsed := u.resume_parsed.getD s.resume_parsed }

inductive WFNode where
  | start
  | parse_resume
  | retry_parse
  | fetch_jd
  | handle_error
  | terminalEnd
deriving DecidableEq, Repr

/-- `retryParseNode` returns the full state spread with `errors: []` and
`retry_count + 1`.  Through the concat reducer the `[]` update leaves the
accumulated errors unchanged: the retry edge does not clear the error list. -/
def retryParseNode (s : WFState) : WFUpdate :=
  { errors := some [],
    retry_count := some (s.retry_count + 1),
    resume_parsed := some s.resume_parsed }

/-- `handleErrorNode` returns the full state spread (plus log fields); the
spread re-sends the current `errors` list through the concat reducer. -/
def handleErrorNodeUpdate (s : WFState) : WFUpdate :=
  { errors := some s.errors,
    retry_count := some s.retry_count,
    resume_parsed := some s.resume_parsed }

/-- The conditional edge after `parse_resume` (workflow.js lines 128-151):
errors present → retry while `retry_count < 2`, else `handle_error`;
no errors → `fetch_jd` when the resume parsed, else `handle_error`. -/
def parseRoute (s : WFState) : WFNode :=
  if s.errors.length > 0 then
    if s.retry_count < 2 then WFNode.retry_parse else WFNode.handle_error
  else if s.resume_parsed then WFNode.fetch_jd
  else WFNode.handle_error

/-- `parseResumeNode` (parse-resume.js lines 259-293): on success it returns
the full state object (a spread through the channels) with
`resume.parsed = true`; on ANY failure of the read / pdf-parse / OpenAI
chain it THROWS `ProcessingError('Failed to parse resume PDF')`.  It never
writes the `errors` channel.  `ok` is whether the external chain (file
read, pdf parse, OpenAI call) succeeds on this attempt. -/
def parseResumeNode (ok : Bool) (s : WFState) : Except String WFUpdate :=
  if ok then
    Except.ok { errors := some s.errors, retry_count := some s.retry_count,
                resume_parsed := some true }
  else Except.error "Failed to parse resume PDF"

/-- One transition of the workflow graph under the real node semantics: a
node that throws makes `workflow.invoke` reject with that error (LangGraph
propagates a node's exception to the caller), so no channel update and no
edge happen.  `ok i` is whether the i-th entry into the parse stage
succeeds; `i` counts parse entries.  `fetch_jd` and the stages after it are
outside the C5 scenario and step directly to the terminal node. -/
def wfStep (ok : Nat → Bool) : WFNode → WFState → Nat →
    Except String (WFNode × WFState × Nat)
  | WFNode.start, s, i => Except.ok (WFNode.parse_resume, s, i)
  | WFNode.parse_resume, s, i =>
    match parseResumeNode (ok i) s with
    | Except.error e => Except.error e
    | Except.ok u => Except.ok (parseRoute (applyUpdate s u), applyUpdate s u, i + 1)
  | WFNode.retry_parse, s, i =>
    Except.ok (WFNode.parse_resume, applyUpdate s (retryParseNode s), i)
  | WFNode.fetch_jd, s, i => Except.ok (WFNode.terminalEnd, s, i)
  | WFNode.handle_error, s, i =>
    Except.ok (WFNode.terminalEnd, applyUpdate s (handleErrorNodeUpdate s), i)
  | WFNode.terminalEnd, s, i => Except.ok (WFNode.terminalEnd, s, i)

/-- Fuelled run collecting the visited nodes (terminal node included once):
either the thrown error with the state and parse-entry count at the throw
(the run aborts there), or the final state and count. -/
def wfRun (ok : Nat → Bool) : Nat → WFNode → WFState → Nat →
    List WFNode × Except (String × WFState × Nat) (WFState × Nat)
  | 0, _, s, i => ([], Except.ok (s, i))
  | fuel + 1, n, s, i =>
    if n = WFNode.terminalEnd then ([WFNode.terminalEnd], Except.ok (s, i))
    else
      match wfStep ok n s i with
      | Except.error e => ([n], Except.error (e, s, i))
      | Except.ok r =>
        let rest := wfRun ok fuel r.1 r.2.1 r.2.2
        (n :: rest.1, rest.2)

/-! ### Claim C5 -/

/-- C5: the claimed retry behaviour does not occur in the program.
`parseResumeNode` signals failure by throwing, not by writing the `errors`
channel the conditional edge after `parse_resume` inspects, and LangGraph
propagates the throw out of `workflow.invoke`.  So when every parse attempt
fails, the run aborts on the FIRST failure: the parse stage is entered
exactly once (not 3 times), `retry_parse` and `handle_error` are never
entered, and the error reaches the caller as a thrown exception with
`retry_count = 0` (not 2) and the `errors` list still empty — there is no
termination "in the error state with retry-count = 2".  Independently, the
claimed "clears the error list" is impossible even on the dead retry edge:
the `errors` channel reducer concatenates, so `retryParseNode`'s
`errors: []` update only increments the retry counter (third conjunct). -/
theorem C5_parse_throw_aborts_without_retry :
    (wfRun (fun _ => false) 20 WFNode.start {} 0).1
        = [WFNode.start, WFNode.parse_resume] ∧
      (wfRun (fun _ => false) 20 WFNode.start {} 0).2
        = Except.error ("Failed to parse resume PDF", {}, 0) ∧
      ∀ s : WFState, applyUpdate s (retryParseNode s)
        = { s with retry_count := s.retry_count + 1 } := by
  refine ⟨by decide, rfl, ?_⟩
  intro s
  simp [applyUpdate, retryParseNode]

/-! ## Document model (JSON Resume, the fields the patch engine reads) -/

structure BasicsInfo where
  name : Option String := none
  email : Option String := none
  phone : Option String := none
  summary : Option String := none
deriving DecidableEq, Repr

structure WorkEntry where
  position : Option String := none
  company : Option String := none
  location : Option String := none
  summary : Option String := none
  highlights : Option (List String) := none
deriving DecidableEq, Repr

structure EducationEntry where
  institution : Option String := none
  area : Option String := none
  studyType : Option String := none
  degree : Option String := none
deriving DecidableEq, Repr

/-- The JSON Resume document.  `none` on a list field models a missing or
non-array property (the source guards every read with `Array.isArray`). -/
structure JsonResume where
  basics : Option BasicsInfo := none
  work : Option (List WorkEntry) := none
  education : Option (List EducationEntry) := none
  skills : Option (List SkillGroup) := none
deriving DecidableEq, Repr

/-! ## Structural Patcher (part_004 `applyPatchesToJsonResume` and helpers) -/

/-- One RFC6902 operation applied with validation, as
`applyPatch(updatedJson, ops, true)` of fast-json-patch does: an unresolvable
or illegal path throws (the message models the library error kind) and the
document is unchanged; a valid operation updates the document. -/
def applyJsonPatchOp (doc : JsonResume) : JsonPatchOp → Except String JsonResume
  | JsonPatchOp.addSkillKeyword idx v =>
    if idx < 0 then Except.error "OPERATION_PATH_ILLEGAL_ARRAY_INDEX"
    else
      match doc.skills with
      | none => Except.error "OPERATION_PATH_UNRESOLVABLE"
      | some l =>
        if idx.toNat < l.length then
          Except.ok { doc with
            skills := some (l.set idx.toNat
              { l.getD idx.toNat ⟨"", []⟩ with
                keywords := (l.getD idx.toNat ⟨"", []⟩).keywords ++ [v] }) }
        else Except.error "OPERATION_PATH_UNRESOLVABLE"
  | JsonPatchOp.addWorkHighlight idx v =>
    match doc.work with
    | none => Except.error "OPERATION_PATH_UNRESOLVABLE"
    | some l =>
      if idx < l.length then
        match (l.getD idx {}).highlights with
        | none => Except.error "OPERATION_PATH_UNRESOLVABLE"
        | some hs =>
          Except.ok { doc with
            work := some (l.set idx { l.getD idx {} with highlights := some (hs ++ [v]) }) }
      else Except.error "OPERATION_PATH_UNRESOLVABLE"
  | JsonPatchOp.replaceWorkSummary idx v =>
    match doc.work with
    | none => Except.error "OPERATION_PATH_UNRESOLVABLE"
    | some l =>
      if idx < l.length then
        match (l.getD idx {}).summary with
        | none => Except.error "OPERATION_PATH_UNRESOLVABLE"
        | some _ =>
          Except.ok { doc with
            work := some (l.set idx { l.getD idx {} with summary := some v }) }
      else Except.error "OPERATION_PATH_UNRESOLVABLE"

/-- Sequential application of an op list, mutating eagerly: a failing op
leaves the effects of the earlier ops in place (fast-json-patch applies and
validates operation by operation). -/
def applyJsonPatchOps : JsonResume → List JsonPatchOp → JsonResume × Option String
  | doc, [] => (doc, none)
  | doc, op :: rest =>
    match applyJsonPatchOp doc op with
    | Except.ok doc2 => applyJsonPatchOps doc2 rest
    | Except.error m => (doc, some m)

def ensureSkillsArrayExists (root : JsonResume) : JsonResume :=
  match root.skills with
  | some _ => root
  | none => { root with skills := some [] }

/-- `ensureGroupKeywordsArrayExists(root, idx)`.  For a negative `idx` the JS
assignment creates a non-index property on the array, invisible to every
later array read — modelled as a no-op.  For `idx = length` (reachable only
as index 0 on an empty skills list) a default group is appended, as the JS
element assignment does.  A `keywords` field that is not an array is already
modelled as `[]` (see `SkillGroup`). -/
def ensureGroupKeywordsArrayExists (root : JsonResume) (idx : Int) : JsonResume :=
  match root.skills with
  | none => root
  | some l =>
    if idx < 0 then root
    else if idx.toNat < l.length then root
    else if idx.toNat = l.length then { root with skills := some (l ++ [⟨"Skills", []⟩]) }
    else root

/-- `buildJsonPatchOpsForPatch(patch, root)` (part_004 lines 288-337): return
the (possibly mutated) root together with the synthesized op list.  Note:
for add_skill / add_keyword there is no already-exists check — the op appends
the keyword to the resolved group unconditionally. -/
def buildJsonPatchOpsForPatch (resp : ClassifierResp) (patch : Patch)
    (root : JsonResume) : JsonResume × List JsonPatchOp :=
  if patch.type = "add_skill" || patch.type = "add_keyword" then
    match patch.details.bind PatchDetails.value with
    | none => (root, [])
    | some kw =>
      if kw = "" then (root, [])
      else
        let root1 := ensureSkillsArrayExists root
        let idx := pickSkillsGroupIndexForKeyword resp root1.skills (some kw)
        let root2 := ensureGroupKeywordsArrayExists root1 idx
        (root2, [JsonPatchOp.addSkillKeyword idx kw])
  else if patch.type = "role_enhancement" || patch.type = "align_experience" then
    match patch.details.bind PatchDetails.value with
    | none => (root, [])
    | some v =>
      if v = "" then (root, [])
      else
        match root.work with
        | none => (root, [])
        | some l =>
          if l.length = 0 then (root, [])
          else
            let workIdx := l.length - 1
            let w := l.getD workIdx {}
            let root2 : JsonResume :=
              match w.highlights with
              | some _ => root
              | none =>
                { root with work := some (l.set workIdx { w with highlights := some [] }) }
            (root2, [JsonPatchOp.addWorkHighlight workIdx v])
  else if patch.type = "enhance_experience" then
    let fallbackText := "Key achievement: Relevant to target role"
    let enhancementText :=
      match patch.details.bind PatchDetails.value with
      | none => fallbackText
      | some v => if v = "" then fallbackText else v
    match root.work with
    | none => (root, [])
    | some l =>
      if l.length = 0 then (root, [])
      else
        let workIdx := l.length - 1
        let currentSummary := ((l.getD workIdx {}).summary).getD ""
        let updatedSummary :=
          if currentSummary ≠ "" then currentSummary ++ ". " ++ enhancementText
          else enhancementText
        (root, [JsonPatchOp.replaceWorkSummary workIdx updatedSummary])
  else (root, [])

/-- One iteration of the `applyPatchesToJsonResume` loop: take the pre-built
ops if present and non-empty, else synthesize; no ops throws
"No JSON Patch ops available" (caught per patch); otherwise apply with
validation.  Returns the evolved document and `none` (applied) or
`some reason` (failed). -/
def jsonPassApply (pre : JsonResume × List JsonPatchOp) : JsonResume × Option String :=
  if pre.2.isEmpty then (pre.1, some "No JSON Patch ops available")
  else applyJsonPatchOps pre.1 pre.2

def applyOnePatchToJson (resp : ClassifierResp) (patch : Patch)
    (doc : JsonResume) : JsonResume × Option String :=
  jsonPassApply
    (match patch.jsonPatch with
     | some ops =>
       if ops.isEmpty then buildJsonPatchOpsForPatch resp patch doc else (doc, ops)
     | none => buildJsonPatchOpsForPatch resp patch doc)

structure JsonApplyResult where
  updatedJson : JsonResume
  appliedPatches : List Patch
  failedPatches : List (Patch × String)
deriving DecidableEq, Repr

def applyPatchesToJsonResumeAux (resp : Nat → ClassifierResp) (i : Nat)
    (doc : JsonResume) : List Patch → JsonApplyResult
  | [] => ⟨doc, [], []⟩
  | p :: rest =>
    let step := applyOnePatchToJson (resp i) p doc
    match step.2 with
    | none =>
      let r := applyPatchesToJsonResumeAux resp (i + 1) step.1 rest
      ⟨r.updatedJson, p :: r.appliedPatches, r.failedPatches⟩
    | some reason =>
      let r := applyPatchesToJsonResumeAux resp (i + 1) step.1 rest
      ⟨r.updatedJson, r.appliedPatches, (p, reason) :: r.failedPatches⟩

/-- `applyPatchesToJsonResume(patches, jsonResume)` (part_004 lines 134-166).
The deep copy `JSON.parse(JSON.stringify(jsonResume))` is a value copy; the
loop evolves it patch by patch (the timestamps `appliedAt`/`failedAt` of the
outcome records are not modelled).  `resp i` is the classifier response for
the call made while processing patch number `i`. -/
def applyPatchesToJsonResume (resp : Nat → ClassifierResp) (patches : List Patch)
    (jsonResume : JsonResume) : JsonApplyResult :=
  applyPatchesToJsonResumeAux resp 0 jsonResume patches

/-! ## Textual Fallback Patcher (part_004 `applyPatchesToResume` and helpers) -/

/-- Bullet characters stripped from line starts by
`extractGroupedSkillsText`: whitespace, bullet, hyphen, black circle,
white bullet, triangular bullet. -/
def isBulletChar (c : Char) : Bool :=
  isJsWhitespace c || c = '•' || c = '-' || c = '●' || c = '◦' || c = '‣'

/-- Split a line at its first colon (the lazy group of the line pattern);
`none` when the line has no colon, in which case the line is skipped. -/
def splitFirstColon : List Char → Option (List Char × List Char)
  | [] => none
  | c :: cs =>
    if c = ':' then some ([], cs)
    else
      match splitFirstColon cs with
      | none => none
      | some (a, b) => some (c :: a, b)

/-- Split on the item separators comma / semicolon / slash.  The whitespace
consumed by the separator pattern of the source is subsumed by the `trim`
applied to every item right after, so plain one-character splitting is
observationally equal here. -/
def splitSepAux (acc : List Char) : List Char → List (List Char)
  | [] => [acc.reverse]
  | c :: cs =>
    if c = ',' || c = ';' || c = '/' then acc.reverse :: splitSepAux [] cs
    else splitSepAux (c :: acc) cs

/-- `s.replace(dotAtEnd, '')`: drop a single trailing dot. -/
def jsStripTrailingDot (l : List Char) : List Char :=
  if l.getLast? = some '.' then l.dropLast else l

/-- One line of the grouped-skills text: `Name: item, item, ...`. -/
def parseGroupLine (line : String) : Option SkillGroup :=
  match splitFirstColon line.data with
  | none => none
  | some (before, after) =>
    let name := jsTrim (String.mk before)
    let items := (splitSepAux [] (after.dropWhile isJsWhitespace)).map
      (fun cs => jsTrim (String.mk (jsStripTrailingDot cs)))
    let items := items.filter (fun s => s ≠ "")
    if name ≠ "" && items ≠ [] then some ⟨name, dedupeCaseInsensitive items⟩ else none

/-- `extractGroupedSkillsText(text)` (part_004 lines 668-687). -/
def extractGroupedSkillsText (text : String) : List SkillGroup :=
  if text = "" then []
  else
    let lines := (jsSplitChar '\n' text).map
      (fun l => jsTrim (String.mk (l.data.dropWhile isBulletChar)))
    (lines.filter (fun l => l ≠ "")).filterMap parseGroupLine

/-- `stringifyGroupedSkills(groups)` (part_004 lines 689-695): enforce the
category limit, then one bullet line per group. -/
def stringifyGroupedSkills (groups : List SkillGroup) : String :=
  jsJoin "\n" ((enforceCategoryLimit groups 4).map
    (fun g => "• " ++ g.name ++ ": " ++ jsJoin ", " (dedupeCaseInsensitive g.keywords) ++ "."))

/-- Fallback tokenizer of `pickGroupForSkill`: runs of lower-case letters and
digits (inputs are lower-cased before splitting). -/
def alnumTokens (s : String) : List String :=
  jsSplitKeep (fun c => ('a' ≤ c && c ≤ 'z') || isDigitChar c) s

/-- The similarity score of `pickGroupForSkill`: 10 exact, 5 substring,
else the number of shared tokens. -/
def pickGroupScore (s : String) (g : SkillGroup) : Nat :=
  g.keywords.foldl
    (fun acc k =>
      let keyword := jsToLower k
      if keyword = s then acc + 10
      else if jsIncludes keyword s || jsIncludes s keyword then acc + 5
      else acc + ((alnumTokens s).filter (fun t => t ∈ alnumTokens keyword)).length)
    0

/-- `pickGroupForSkill(groups, skill)` (part_004 lines 768-839): same
structure as the resolver of the structural path — classifier first, with the
same incomplete index validation (negative parsed indices pass through),
similarity fallback on a thrown call. -/
def pickGroupForSkill (resp : ClassifierResp) (groups : List SkillGroup)
    (skill : String) : Int :=
  if groups.length = 0 then 0
  else
    match resp with
    | ClassifierResp.ok content =>
      match jsParseInt (classifierRawIndex content) with
      | none => 0
      | some ci => if (groups.length : Int) ≤ ci then 0 else ci
    | ClassifierResp.err =>
      (bestGroupIdx (pickGroupScore (jsToLower skill)) groups : Int)

inductive SectionName where
  | basics
  | experience
  | education
  | skills
  | projects
deriving DecidableEq, Repr

/-- The flattened text-section map.  A key that the source leaves absent is
the empty string (every read site applies `|| ''`). -/
structure ResumeSections where
  basics : String := ""
  experience : String := ""
  education : String := ""
  skills : String := ""
  projects : String := ""
deriving DecidableEq, Repr

def ResumeSections.get (s : ResumeSections) : SectionName → String
  | SectionName.basics => s.basics
  | SectionName.experience => s.experience
  | SectionName.education => s.education
  | SectionName.skills => s.skills
  | SectionName.projects => s.projects

def ResumeSections.put (s : ResumeSections) : SectionName → String → ResumeSections
  | SectionName.basics, v => { s with basics := v }
  | SectionName.experience, v => { s with experience := v }
  | SectionName.education, v => { s with education := v }
  | SectionName.skills, v => { s with skills := v }
  | SectionName.projects, v => { s with projects := v }

/-- Result of `applySinglePatch`: `{success: true, section, updatedContent}`
or `{success: false, reason}`. -/
inductive PatchOutcome where
  | applied : SectionName → String → PatchOutcome
  | failed : String → PatchOutcome
deriving DecidableEq, Repr

/-- Per-patch collaborator inputs of the text patcher: the classifier
response of `pickGroupForSkill` and the `Math.random` draw of
`applyEnhancementPatch` (as an arbitrary natural, used modulo 6). -/
structure TextPatchEnv where
  cls : ClassifierResp := ClassifierResp.err
  rand : Nat := 0

/-- `patch.details` when `details` may be undefined: reading any property
of `undefined` throws a TypeError. -/
def getDetails (p : Patch) : Except String PatchDetails :=
  match p.details with
  | some d => Except.ok d
  | none => Except.error "Cannot read properties of undefined"

/-- Calling a string method on a possibly-undefined value
(`undefined.toLowerCase()`, `undefined.includes(...)`) throws. -/
def reqString (v : Option String) : Except String String :=
  match v with
  | some s => Except.ok s
  | none => Except.error "Cannot read properties of undefined"

/-- `if (!exists) groups[targetIdx].keywords.push(newSkill)`: insert the
keyword into group `i` unless it is already there case-insensitively. -/
def insertKeywordAt (groups : List SkillGroup) (i : Nat) (newSkill : String) :
    List SkillGroup :=
  if (groups.getD i ⟨"", []⟩).keywords.any (fun k => jsToLower k = jsToLower newSkill) then
    groups
  else
    groups.set i
      { groups.getD i ⟨"", []⟩ with
        keywords := (groups.getD i ⟨"", []⟩).keywords ++ [newSkill] }

/-- The grouped branch shared by `applySkillPatch` and `applyKeywordPatch`:
resolve the target group, insert, re-serialize.  An invalid (negative)
resolver index makes the member access `groups[targetIdx].keywords` throw. -/
def insertIntoGroups (resp : ClassifierResp) (groups : List SkillGroup)
    (newSkill : String) : Except String PatchOutcome :=
  if 0 ≤ pickGroupForSkill resp groups newSkill ∧
      (pickGroupForSkill resp groups newSkill).toNat < groups.length then
    Except.ok (PatchOutcome.applied SectionName.skills
      (stringifyGroupedSkills
        (insertKeywordAt groups (pickGroupForSkill resp groups newSkill).toNat newSkill)))
  else Except.error "Cannot read properties of undefined"

/-- `applySkillPatch` (part_004 lines 373-407). -/
def applySkillPatch (env : TextPatchEnv) (patch : Patch)
    (resumeSections : ResumeSections) : Except String PatchOutcome :=
  match getDetails patch with
  | Except.error e => Except.error e
  | Except.ok d =>
    match reqString d.value with
    | Except.error e => Except.error e
    | Except.ok newSkill =>
      if jsIncludes (jsToLower resumeSections.skills) (jsToLower newSkill) then
        Except.ok (PatchOutcome.failed "Skill already exists in resume")
      else if (extractGroupedSkillsText resumeSections.skills).length > 0 then
        insertIntoGroups env.cls (extractGroupedSkillsText resumeSections.skills) newSkill
      else
        Except.ok (PatchOutcome.applied SectionName.skills
          (if jsTrim resumeSections.skills ≠ "" then
            resumeSections.skills ++ ", " ++ newSkill
          else newSkill))

/-- The six canned enhancement strings of `applyEnhancementPatch`. -/
def enhancementsList : List String :=
  ["with version control and best practices",
   "including modern frameworks and tools",
   "with focus on scalability and performance",
   "following industry best practices and standards",
   "with emphasis on code quality and maintainability",
   "utilizing agile methodologies and continuous integration"]

/-- `applyEnhancementPatch` (part_004 lines 409-439);
`Math.floor(Math.random() * 6)` is `env.rand % 6`. -/
def applyEnhancementPatch (env : TextPatchEnv) (patch : Patch)
    (resumeSections : ResumeSections) : Except String PatchOutcome :=
  match getDetails patch with
  | Except.error e => Except.error e
  | Except.ok d =>
    match reqString d.action with
    | Except.error e => Except.error e
    | Except.ok action =>
      if jsIncludes action "expand" then
        Except.ok (PatchOutcome.applied
          (if jsIncludes action "skills" then SectionName.skills else SectionName.experience)
          (resumeSections.get
              (if jsIncludes action "skills" then SectionName.skills
               else SectionName.experience)
            ++ ". " ++ enhancementsList.getD (env.rand % 6) ""))
      else Except.ok (PatchOutcome.failed "Enhancement type not supported")

/-- `applyExperiencePatch` (part_004 lines 441-461). -/
def applyExperiencePatch (patch : Patch) (resumeSections : ResumeSections) :
    Except String PatchOutcome :=
  match getDetails patch with
  | Except.error e => Except.error e
  | Except.ok d =>
    match reqString d.action with
    | Except.error e => Except.error e
    | Except.ok action =>
      if jsIncludes action "emphasize" then
        Except.ok (PatchOutcome.applied SectionName.experience
          (resumeSections.experience ++ " (Key achievement: Relevant to target role)"))
      else Except.ok (PatchOutcome.failed "Experience enhancement type not supported")

/-- `applyExperienceAlignmentPatch` (part_004 lines 463-509): always succeeds;
an undefined `value` concatenates as the string "undefined", as in JS. -/
def applyExperienceAlignmentPatch (patch : Patch) (resumeSections : ResumeSections) :
    Except String PatchOutcome :=
  match getDetails patch with
  | Except.error e => Except.error e
  | Except.ok d =>
    Except.ok (PatchOutcome.applied SectionName.experience
      (if d.action = some "emphasize_role_relevance" then
        resumeSections.experience ++ " (Relevant to target role: "
          ++ d.value.getD "undefined" ++ ")"
      else
        resumeSections.experience ++ ". " ++ d.value.getD "undefined"))

/-- `applyRoleEnhancementPatch` (part_004 lines 511-553): every category
branch appends `". " ++ value` to the experience section; always succeeds. -/
def applyRoleEnhancementPatch (patch : Patch) (resumeSections : ResumeSections) :
    Except String PatchOutcome :=
  match getDetails patch with
  | Except.error e => Except.error e
  | Except.ok d =>
    Except.ok (PatchOutcome.applied SectionName.experience
      (resumeSections.experience ++ ". " ++ d.value.getD "undefined"))

/-- `applyContentPatch` (part_004 lines 555-574). -/
def applyContentPatch (patch : Patch) (resumeSections : ResumeSections) :
    Except String PatchOutcome :=
  match getDetails patch with
  | Except.error e => Except.error e
  | Except.ok d =>
    match reqString d.action with
    | Except.error e => Except.error e
    | Except.ok action =>
      if jsIncludes action "add_project_section" then
        Except.ok (PatchOutcome.applied SectionName.projects
          (if resumeSections.projects ≠ "" then
            resumeSections.projects ++ "\n"
              ++ "Relevant Project: Developed scalable solution with measurable outcomes"
          else "Relevant Project: Developed scalable solution with measurable outcomes"))
      else Except.ok (PatchOutcome.failed "Content addition type not supported")

/-- `applyKeywordPatch` (part_004 lines 576-610): same shape as
`applySkillPatch`, with its own failure reason and an untrimmed emptiness
check in the flat fallback. -/
def applyKeywordPatch (env : TextPatchEnv) (patch : Patch)
    (resumeSections : ResumeSections) : Except String PatchOutcome :=
  match getDetails patch with
  | Except.error e => Except.error e
  | Except.ok d =>
    match reqString d.value with
    | Except.error e => Except.error e
    | Except.ok keyword =>
      if jsIncludes (jsToLower resumeSections.skills) (jsToLower keyword) then
        Except.ok (PatchOutcome.failed "Keyword already exists in resume")
      else if (extractGroupedSkillsText resumeSections.skills).length > 0 then
        insertIntoGroups env.cls (extractGroupedSkillsText resumeSections.skills) keyword
      else
        Except.ok (PatchOutcome.applied SectionName.skills
          (if resumeSections.skills ≠ "" then
            resumeSections.skills ++ ", " ++ keyword
          else keyword))

/-- Search for the literal pattern followed by a non-empty rest-of-line
capture (the regex `Add missing skills: ` with a greedy one-or-more capture):
positions are tried left to right. -/
def findAfterLiteral (pat : List Char) : List Char → Option (List Char)
  | [] => none
  | c :: cs =>
    if startsSeq pat (c :: cs) then
      let captured := ((c :: cs).drop pat.length).takeWhile (fun ch => ch ≠ '\n')
      if captured.isEmpty then findAfterLiteral pat cs else some captured
    else findAfterLiteral pat cs

/-- JS `s.split(', ')` (two-character literal separator). -/
def splitCommaSpaceAux (acc : List Char) : List Char → List (List Char)
  | [] => [acc.reverse]
  | [c] => [(c :: acc).reverse]
  | c :: c2 :: cs =>
    if c = ',' && c2 = ' ' then acc.reverse :: splitCommaSpaceAux [] cs
    else splitCommaSpaceAux (c :: acc) (c2 :: cs)

/-- `applyRecommendationPatch` (part_004 lines 612-637). -/
def applyRecommendationPatch (patch : Patch) (resumeSections : ResumeSections) :
    Except String PatchOutcome :=
  match getDetails patch with
  | Except.error e => Except.error e
  | Except.ok d =>
    match reqString d.value with
    | Except.error e => Except.error e
    | Except.ok recommendation =>
      if jsIncludes recommendation "Add missing skills" then
        match findAfterLiteral "Add missing skills: ".data recommendation.data with
        | some captured =>
          Except.ok (PatchOutcome.applied SectionName.skills
            (if resumeSections.skills ≠ "" then
              resumeSections.skills ++ ", "
                ++ jsJoin ", " ((splitCommaSpaceAux [] captured).map String.mk)
            else jsJoin ", " ((splitCommaSpaceAux [] captured).map String.mk)))
        | none => Except.ok (PatchOutcome.failed "Recommendation type not supported")
      else Except.ok (PatchOutcome.failed "Recommendation type not supported")

/-- `applySinglePatch` (part_004 lines 339-371): dispatch on the duck-typed
`patch.type` string with a failing default branch. -/
def applySinglePatch (env : TextPatchEnv) (patch : Patch)
    (resumeSections : ResumeSections) : Except String PatchOutcome :=
  if patch.type = "add_skill" then applySkillPatch env patch resumeSections
  else if patch.type = "enhance_section" then applyEnhancementPatch env patch resumeSections
  else if patch.type = "enhance_experience" then applyExperiencePatch patch resumeSections
  else if patch.type = "align_experience" then applyExperienceAlignmentPatch patch resumeSections
  else if patch.type = "role_enhancement" then applyRoleEnhancementPatch patch resumeSections
  else if patch.type = "add_content" then applyContentPatch patch resumeSections
  else if patch.type = "add_keyword" then applyKeywordPatch env patch resumeSections
  else if patch.type = "recommendation_based" then applyRecommendationPatch patch resumeSections
  else Except.ok (PatchOutcome.failed ("Unknown patch type: " ++ patch.type))

structure TextApplyResult where
  updatedSections : ResumeSections
  appliedPatches : List Patch
  failedPatches : List (Patch × String)
deriving DecidableEq, Repr

/-- The `for (const patch of patches)` loop of `applyPatchesToResume`
(part_004 lines 96-131): a success updates the named section, a failure or a
thrown error is recorded with its reason and the loop continues. -/
def applyPatchesToResumeAux (env : Nat → TextPatchEnv) (i : Nat)
    (sections : ResumeSections) : List Patch → TextApplyResult
  | [] => ⟨sections, [], []⟩
  | p :: rest =>
    match applySinglePatch (env i) p sections with
    | Except.ok (PatchOutcome.applied sec content) =>
      let r := applyPatchesToResumeAux env (i + 1) (sections.put sec content) rest
      ⟨r.updatedSections, p :: r.appliedPatches, r.failedPatches⟩
    | Except.ok (PatchOutcome.failed reason) =>
      let r := applyPatchesToResumeAux env (i + 1) sections rest
      ⟨r.updatedSections, r.appliedPatches, (p, reason) :: r.failedPatches⟩
    | Except.error m =>
      let r := applyPatchesToResumeAux env (i + 1) sections rest
      ⟨r.updatedSections, r.appliedPatches, (p, m) :: r.failedPatches⟩

def applyPatchesToResume (env : Nat → TextPatchEnv) (patches : List Patch)
    (resumeSections : ResumeSections) : TextApplyResult :=
  applyPatchesToResumeAux env 0 resumeSections patches

/-- `[a, b, ...].filter(Boolean)` over possibly-undefined strings. -/
def jsFilterBoolean (l : List (Option String)) : List String :=
  (l.filterMap id).filter (fun s => s ≠ "")

/-- `getResumeSectionsFromJsonResume(json)` (part_004 lines 639-665); the
returned object has no `projects` key, modelled as the empty string. -/
def getResumeSectionsFromJsonResume (json : JsonResume) : ResumeSections :=
  let basics := json.basics.getD {}
  let work := json.work.getD []
  let education := json.education.getD []
  let skills := json.skills.getD []
  let basicsText :=
    jsJoin " " (jsFilterBoolean [basics.name, basics.email, basics.phone, basics.summary])
  let workText := jsJoin "\n" (work.map (fun w =>
    jsJoin " " (jsFilterBoolean
      [w.position, w.company, w.location, w.summary,
        some (jsJoin " " (w.highlights.getD []))])))
  let educationText := jsJoin "\n" (education.map (fun e =>
    jsJoin " " (jsFilterBoolean [e.institution, e.area, e.studyType, e.degree])))
  let skillsText := jsJoin "\n" ((skills.map (fun s =>
    let kws := jsJoin ", " (s.keywords.filter (fun k => k ≠ ""))
    if s.name ≠ "" && kws ≠ "" then s.name ++ ": " ++ kws else s.name)).filter
      (fun t => t ≠ ""))
  { basics := basicsText, experience := workText, education := educationText,
    skills := skillsText, projects := "" }

structure ApplyPatchesOutcome where
  updatedJson : JsonResume
  updatedSections : ResumeSections
  appliedPatches : List Patch
  failedPatches : List (Patch × String)
deriving DecidableEq, Repr

/-- The core data flow of `applyPatchesNode` (part_004 lines 6-94) for a
state with a structured jsonResume and no pre-existing text sections: the
structural pass runs first, the text sections are re-derived from the updated
JSON, and the text pass then processes exactly the approved patches whose id
is not among the structurally applied ones — the structurally failed ones
included. -/
def applyPatchesNodeCore (resp : Nat → ClassifierResp) (env : Nat → TextPatchEnv)
    (approvedPatches : List Patch) (jsonResume : JsonResume) : ApplyPatchesOutcome :=
  let jsonResult := applyPatchesToJsonResume resp approvedPatches jsonResume
  let baseSections := getResumeSectionsFromJsonResume jsonResult.updatedJson
  let textPatches := approvedPatches.filter
    (fun p => !(jsonResult.appliedPatches.any (fun ap => ap.id = p.id)))
  let textResult := applyPatchesToResume env textPatches baseSections
  { updatedJson := jsonResult.updatedJson,
    updatedSections := textResult.updatedSections,
    appliedPatches := jsonResult.appliedPatches ++ textResult.appliedPatches,
    failedPatches := jsonResult.failedPatches ++ textResult.failedPatches }

/-! ## Store model of the structural pass (for the frame property, C9) -/

/-- Heap view: documents addressable by index.  `applyPatchesToJsonResume`
deep-copies its argument (`JSON.parse(JSON.stringify(jsonResume))`) into a
fresh object, and every mutating statement of the pass targets that copy
(`updatedJson`, also bound as `root` inside the op builder).  The store model
makes that explicit: the copy is appended at slot `store.length`, and the
per-patch loop rewrites only that slot. -/
def applyPatchesToJsonResumeStoreAux (resp : Nat → ClassifierResp) (j : Nat) :
    Nat → List JsonResume → List Patch → List JsonResume
  | _, store, [] => store
  | i, store, p :: rest =>
    let step := applyOnePatchToJson (resp i) p (store.getD j {})
    applyPatchesToJsonResumeStoreAux resp j (i + 1) (store.set j step.1) rest

/-- `applyPatchesToJsonResume` at store level: returns the final store and
the slot of the fresh updated document. -/
def applyPatchesToJsonResumeStore (resp : Nat → ClassifierResp)
    (patches : List Patch) (store : List JsonResume) (i : Nat) :
    List JsonResume × Nat :=
  (applyPatchesToJsonResumeStoreAux resp store.length 0
      (store ++ [store.getD i {}]) patches,
    store.length)

/-! ### Claim C1 -/

def pythonPatch : Patch :=
  { id := "skill_python", type := "add_skill", priority := some "high",
    description := "Add specific technology: python",
    details := some { action := some "add_to_skills_section", value := some "python" } }

def coreDoc : JsonResume := { skills := some [⟨"Core", ["Python"]⟩] }

/-- C1: the structural pass applies an add-skill proposal whose keyword is
already present (case-insensitively) in the resolved group — the spec says it
must fail with "already exists" and leave the Document unchanged.  Instead,
on `{skills: [{Core, [Python]}]}` the proposal add-skill "python" resolves to
group 0 (exact-member step of the resolver), is appended without any
presence check, and is recorded as applied; a second application appends a
third copy, so the operation is not idempotent and the within-group
uniqueness invariant is broken. -/
theorem C1_already_present_keyword_is_duplicated :
    (applyPatchesToJsonResume (fun _ => ClassifierResp.err) [pythonPatch] coreDoc).updatedJson
        = { skills := some [⟨"Core", ["Python", "python"]⟩] } ∧
      (applyPatchesToJsonResume (fun _ => ClassifierResp.err) [pythonPatch]
          coreDoc).appliedPatches = [pythonPatch] ∧
      (applyPatchesToJsonResume (fun _ => ClassifierResp.err) [pythonPatch]
          coreDoc).failedPatches = [] ∧
      (applyPatchesToJsonResume (fun _ => ClassifierResp.err) [pythonPatch]
          (applyPatchesToJsonResume (fun _ => ClassifierResp.err) [pythonPatch]
            coreDoc).updatedJson).updatedJson
        = { skills := some [⟨"Core", ["Python", "python", "python"]⟩] } := by
  decide

/-! ### Claim C7, counterexample -/

def alignPatch : Patch :=
  { id := "align_1", type := "align_experience", priority := some "medium",
    description := "Align experience with the job description",
    details := some { action := some "add_technology_mention",
                      value := some "Led Kubernetes migration" } }

def noWorkDoc : JsonResume := { skills := some [⟨"Core", ["Python"]⟩] }

/-- C7, counterexample.  The claim states that an align-experience proposal
on a Document without work entries fails and is not applied by any other
route.  On `noWorkDoc` (no `work` array) the structural pass does record the
proposal as failed ("No JSON Patch ops available"), but `applyPatchesNode`
then feeds every approved patch that is not in `appliedPatches` — the failed
one included — to the textual pass, where `applyExperienceAlignmentPatch`
always succeeds: the proposal ends up in `appliedPatches` as well, appended
to the experience text section. -/
theorem C7_counterexample :
    (applyPatchesNodeCore (fun _ => ClassifierResp.err) (fun _ => {}) [alignPatch]
        noWorkDoc).failedPatches = [(alignPatch, "No JSON Patch ops available")] ∧
      (applyPatchesNodeCore (fun _ => ClassifierResp.err) (fun _ => {}) [alignPatch]
        noWorkDoc).appliedPatches = [alignPatch] ∧
      (applyPatchesNodeCore (fun _ => ClassifierResp.err) (fun _ => {}) [alignPatch]
        noWorkDoc).updatedSections.experience = ". Led Kubernetes migration" := by
  decide

/-! ### List lemmas for the store model -/

theorem list_getD_set_ne {α : Type} (d : α) :
    ∀ (l : List α) (j k : Nat) (x : α), j ≠ k → (l.set j x).getD k d = l.getD k d := by
  intro l
  induction l with
  | nil => intro j k x _; cases j <;> rfl
  | cons a as ih =>
    intro j k x h
    cases j with
    | zero =>
      cases k with
      | zero => exact absurd rfl h
      | succ k2 => rfl
    | succ j2 =>
      cases k with
      | zero => rfl
      | succ k2 =>
        show (as.set j2 x).getD k2 d = as.getD k2 d
        exact ih j2 k2 x (by omega)

theorem list_getD_set_self {α : Type} (d : α) :
    ∀ (l : List α) (j : Nat) (x : α), j < l.length → (l.set j x).getD j d = x := by
  intro l
  induction l with
  | nil => intro j x h; simp at h
  | cons a as ih =>
    intro j x h
    cases j with
    | zero => rfl
    | succ j2 =>
      show (as.set j2 x).getD j2 d = x
      exact ih j2 x (by simpa using Nat.lt_of_succ_lt_succ h)

theorem list_length_set {α : Type} :
    ∀ (l : List α) (j : Nat) (x : α), (l.set j x).length = l.length := by
  intro l j x
  exact List.length_set l j x

theorem list_getD_append_left {α : Type} (d : α) :
    ∀ (l1 l2 : List α) (k : Nat), k < l1.length → (l1 ++ l2).getD k d = l1.getD k d := by
  intro l1
  induction l1 with
  | nil => intro l2 k h; simp at h
  | cons a as ih =>
    intro l2 k h
    cases k with
    | zero => rfl
    | succ k2 =>
      show (as ++ l2).getD k2 d = as.getD k2 d
      exact ih l2 k2 (by simpa using Nat.lt_of_succ_lt_succ h)

theorem list_getD_append_self {α : Type} (d : α) :
    ∀ (l : List α) (x : α), (l ++ [x]).getD l.length d = x := by
  intro l
  induction l with
  | nil => intro x; rfl
  | cons a as ih => intro x; exact ih x

/-! ### Frame lemmas for the structural pass -/

theorem storeAux_frame (resp : Nat → ClassifierResp) (j : Nat) :
    ∀ (ps : List Patch) (i : Nat) (store : List JsonResume) (k : Nat), k ≠ j →
      (applyPatchesToJsonResumeStoreAux resp j i store ps).getD k {} = store.getD k {} := by
  intro ps
  induction ps with
  | nil => intro i store k _; rfl
  | cons p rest ih =>
    intro i store k hk
    show (applyPatchesToJsonResumeStoreAux resp j (i + 1)
        (store.set j (applyOnePatchToJson (resp i) p (store.getD j {})).1) rest).getD k {}
      = store.getD k {}
    rw [ih (i + 1) _ k hk]
    exact list_getD_set_ne {} store j k _ (fun h => hk h.symm)

theorem applyPatchesToJsonResumeAux_cons_updatedJson (resp : Nat → ClassifierResp)
    (i : Nat) (doc : JsonResume) (p : Patch) (rest : List Patch) :
    (applyPatchesToJsonResumeAux resp i doc (p :: rest)).updatedJson
      = (applyPatchesToJsonResumeAux resp (i + 1)
          (applyOnePatchToJson (resp i) p doc).1 rest).updatedJson := by
  show (match (applyOnePatchToJson (resp i) p doc).2 with
      | none =>
        let r := applyPatchesToJsonResumeAux resp (i + 1) (applyOnePatchToJson (resp i) p doc).1 rest
        JsonApplyResult.mk r.updatedJson (p :: r.appliedPatches) r.failedPatches
      | some reason =>
        let r := applyPatchesToJsonResumeAux resp (i + 1) (applyOnePatchToJson (resp i) p doc).1 rest
        JsonApplyResult.mk r.updatedJson r.appliedPatches ((p, reason) :: r.failedPatches)
      ).updatedJson = _
  cases (applyOnePatchToJson (resp i) p doc).2 <;> rfl

theorem storeAux_slot (resp : Nat → ClassifierResp) (j : Nat) :
    ∀ (ps : List Patch) (i : Nat) (store : List JsonResume), j < store.length →
      (applyPatchesToJsonResumeStoreAux resp j i store ps).getD j {}
        = (applyPatchesToJsonResumeAux resp i (store.getD j {}) ps).updatedJson := by
  intro ps
  induction ps with
  | nil => intro i store _; rfl
  | cons p rest ih =>
    intro i store hj
    show (applyPatchesToJsonResumeStoreAux resp j (i + 1)
        (store.set j (applyOnePatchToJson (resp i) p (store.getD j {})).1) rest).getD j {}
      = _
    rw [ih (i + 1) _ (by rw [list_length_set]; exact hj)]
    rw [list_getD_set_self {} store j _ hj]
    rw [applyPatchesToJsonResumeAux_cons_updatedJson]

/-! ### Claim C9 -/

/-- C9: the structural patch pass operates on a deep copy and never mutates
the input JSON Resume.  In the store model: for every store of documents,
every input slot `i`, and every batch of proposals, every pre-existing slot
`k` of the store is unchanged after the pass (in particular slot `i`, the
`jsonResume` argument), and the fresh slot returned by the pass holds exactly
the value-level result of `applyPatchesToJsonResume` on a copy of slot `i`. -/
theorem C9_input_not_mutated (resp : Nat → ClassifierResp) (patches : List Patch)
    (store : List JsonResume) (i k : Nat) (hk : k < store.length) :
    (applyPatchesToJsonResumeStore resp patches store i).1.getD k {} = store.getD k {} ∧
      (applyPatchesToJsonResumeStore resp patches store i).1.getD
          (applyPatchesToJsonResumeStore resp patches store i).2 {}
        = (applyPatchesToJsonResume resp patches (store.getD i {})).updatedJson := by
  constructor
  · show (applyPatchesToJsonResumeStoreAux resp store.length 0
        (store ++ [store.getD i {}]) patches).getD k {} = store.getD k {}
    rw [storeAux_frame resp store.length patches 0 _ k (by omega)]
    exact list_getD_append_left {} store _ k hk
  · show (applyPatchesToJsonResumeStoreAux resp store.length 0
        (store ++ [store.getD i {}]) patches).getD store.length {} = _
    rw [storeAux_slot resp store.length patches 0 _ (by simp)]
    rw [list_getD_append_self {} store _]
    rfl

/-- Witness for C9 at a concrete two-document store. -/
theorem C9_input_not_mutated_witness :
    (applyPatchesToJsonResumeStore (fun _ => ClassifierResp.err) [pythonPatch]
          [coreDoc, noWorkDoc] 0).1.getD 0 {} = [coreDoc, noWorkDoc].getD 0 {} ∧
      (applyPatchesToJsonResumeStore (fun _ => ClassifierResp.err) [pythonPatch]
            [coreDoc, noWorkDoc] 0).1.getD
          (applyPatchesToJsonResumeStore (fun _ => ClassifierResp.err) [pythonPatch]
            [coreDoc, noWorkDoc] 0).2 {}
        = (applyPatchesToJsonResume (fun _ => ClassifierResp.err) [pythonPatch]
            ([coreDoc, noWorkDoc].getD 0 {})).updatedJson :=
  C9_input_not_mutated (fun _ => ClassifierResp.err) [pythonPatch]
    [coreDoc, noWorkDoc] 0 0 (by decide)

/-! ### Failure reasons of the structural pass are non-empty strings -/

theorem applyJsonPatchOp_error_ne (doc : JsonResume) (op : JsonPatchOp) (m : String)
    (hm : applyJsonPatchOp doc op = Except.error m) : m ≠ "" := by
  unfold applyJsonPatchOp at hm
  repeat' split at hm
  all_goals
    first
    | (injection hm with h; subst h; decide)
    | (injection hm; done)

theorem applyJsonPatchOps_reason_ne :
    ∀ (ops : List JsonPatchOp) (doc : JsonResume) (m : String),
      (applyJsonPatchOps doc ops).2 = some m → m ≠ "" := by
  intro ops
  induction ops with
  | nil => intro doc m hm; exact absurd hm (by simp [applyJsonPatchOps])
  | cons op rest ih =>
    intro doc m hm
    unfold applyJsonPatchOps at hm
    rcases hop : applyJsonPatchOp doc op with e | doc2
    · rw [hop] at hm
      simp at hm
      exact hm ▸ applyJsonPatchOp_error_ne doc op e hop
    · rw [hop] at hm
      exact ih doc2 m hm

theorem applyOnePatchToJson_reason_ne (resp : ClassifierResp) (p : Patch)
    (doc : JsonResume) (m : String)
    (hm : (applyOnePatchToJson resp p doc).2 = some m) : m ≠ "" := by
  unfold applyOnePatchToJson jsonPassApply at hm
  split at hm
  · simp at hm
    subst hm
    decide
  · exact applyJsonPatchOps_reason_ne _ _ m hm

/-! ### The structural batch processes every proposal, never aborts -/

theorem applyPatchesToJsonResumeAux_spec (resp : Nat → ClassifierResp) :
    ∀ (ps : List Patch) (i : Nat) (doc : JsonResume),
      ((applyPatchesToJsonResumeAux resp i doc ps).appliedPatches.length
          + (applyPatchesToJsonResumeAux resp i doc ps).failedPatches.length = ps.length) ∧
        List.Perm ((applyPatchesToJsonResumeAux resp i doc ps).appliedPatches
            ++ (applyPatchesToJsonResumeAux resp i doc ps).failedPatches.map Prod.fst) ps ∧
        ∀ pr ∈ (applyPatchesToJsonResumeAux resp i doc ps).failedPatches, pr.2 ≠ "" := by
  intro ps
  induction ps with
  | nil =>
    intro i doc
    exact ⟨rfl, List.Perm.refl _, by intro pr h; simp [applyPatchesToJsonResumeAux] at h⟩
  | cons p rest ih =>
    intro i doc
    have hstep := applyOnePatchToJson_reason_ne (resp i) p doc
    rcases houtcome : (applyOnePatchToJson (resp i) p doc).2 with _ | reason
    · have hred : applyPatchesToJsonResumeAux resp i doc (p :: rest)
          = ⟨(applyPatchesToJsonResumeAux resp (i + 1)
                (applyOnePatchToJson (resp i) p doc).1 rest).updatedJson,
             p :: (applyPatchesToJsonResumeAux resp (i + 1)
                (applyOnePatchToJson (resp i) p doc).1 rest).appliedPatches,
             (applyPatchesToJsonResumeAux resp (i + 1)
                (applyOnePatchToJson (resp i) p doc).1 rest).failedPatches⟩ := by
        simp only [applyPatchesToJsonResumeAux, houtcome]
      rw [hred]
      obtain ⟨ih1, ih2, ih3⟩ := ih (i + 1) (applyOnePatchToJson (resp i) p doc).1
      refine ⟨?_, ?_, ?_⟩
      · simp only [List.length_cons]; omega
      · simpa using ih2.cons p
      · exact ih3
    · have hred : applyPatchesToJsonResumeAux resp i doc (p :: rest)
          = ⟨(applyPatchesToJsonResumeAux resp (i + 1)
                (applyOnePatchToJson (resp i) p doc).1 rest).updatedJson,
             (applyPatchesToJsonResumeAux resp (i + 1)
                (applyOnePatchToJson (resp i) p doc).1 rest).appliedPatches,
             (p, reason) :: (applyPatchesToJsonResumeAux resp (i + 1)
                (applyOnePatchToJson (resp i) p doc).1 rest).failedPatches⟩ := by
        simp only [applyPatchesToJsonResumeAux, houtcome]
      rw [hred]
      obtain ⟨ih1, ih2, ih3⟩ := ih (i + 1) (applyOnePatchToJson (resp i) p doc).1
      refine ⟨?_, ?_, ?_⟩
      · simp only [List.length_cons]; omega
      · simp only [List.map_cons]
        exact List.Perm.trans List.perm_middle (ih2.cons p)
      · intro pr hpr
        rcases List.mem_cons.mp hpr with rfl | hpr2
        · exact hstep reason houtcome
        · exact ih3 pr hpr2

/-! ### Failure reasons of the textual pass are non-empty strings -/

theorem getDetails_error_ne (p : Patch) (e : String)
    (h : getDetails p = Except.error e) : e ≠ "" := by
  unfold getDetails at h
  split at h
  · injection h
  · injection h with h2; subst h2; decide

theorem reqString_error_ne (v : Option String) (e : String)
    (h : reqString v = Except.error e) : e ≠ "" := by
  unfold reqString at h
  split at h
  · injection h
  · injection h with h2; subst h2; decide

theorem insertIntoGroups_reason_ne (r : ClassifierResp) (g : List SkillGroup)
    (sk : String) (m : String)
    (hm : insertIntoGroups r g sk = Except.ok (PatchOutcome.failed m) ∨
      insertIntoGroups r g sk = Except.error m) : m ≠ "" := by
  unfold insertIntoGroups at hm
  rcases hm with hm | hm <;> split at hm
  · injection hm with h; injection h
  · injection hm
  · injection hm
  · injection hm with h; subst h; decide

theorem applySkillPatch_reason_ne (env : TextPatchEnv) (p : Patch)
    (s : ResumeSections) (m : String)
    (hm : applySkillPatch env p s = Except.ok (PatchOutcome.failed m) ∨
      applySkillPatch env p s = Except.error m) : m ≠ "" := by
  unfold applySkillPatch at hm
  rcases hgd : getDetails p with e | d
  · simp only [hgd] at hm
    rcases hm with hm | hm
    · injection hm
    · injection hm with h; subst h; exact getDetails_error_ne p e hgd
  · simp only [hgd] at hm
    rcases hv : reqString d.value with e | newSkill
    · simp only [hv] at hm
      rcases hm with hm | hm
      · injection hm
      · injection hm with h; subst h; exact reqString_error_ne d.value e hv
    · simp only [hv] at hm
      rcases hm with hm | hm <;> repeat' split at hm
      all_goals
        first
        | (injection hm with h; subst h; decide)
        | (injection hm; done)
        | (injection hm with h; injection h with h2; subst h2; decide)
        | (injection hm with h; injection h; done)
        | (rename_i aeq; injection aeq with h2; subst h2; decide)
        | (rename_i aeq; injection aeq; done)
        | (rename_i aeq; subst aeq; decide)
        | (exact insertIntoGroups_reason_ne _ _ _ m (Or.inl hm))
        | (exact insertIntoGroups_reason_ne _ _ _ m (Or.inr hm))
        | (rename_i aeq; injection aeq with h2; subst h2; decide)
        | (rename_i aeq; injection aeq; done)
        | (rename_i aeq; subst aeq; decide)

theorem applyKeywordPatch_reason_ne (env : TextPatchEnv) (p : Patch)
    (s : ResumeSections) (m : String)
    (hm : applyKeywordPatch env p s = Except.ok (PatchOutcome.failed m) ∨
      applyKeywordPatch env p s = Except.error m) : m ≠ "" := by
  unfold applyKeywordPatch at hm
  rcases hgd : getDetails p with e | d
  · simp only [hgd] at hm
    rcases hm with hm | hm
    · injection hm
    · injection hm with h; subst h; exact getDetails_error_ne p e hgd
  · simp only [hgd] at hm
    rcases hv : reqString d.value with e | keyword
    · simp only [hv] at hm
      rcases hm with hm | hm
      · injection hm
      · injection hm with h; subst h; exact reqString_error_ne d.value e hv
    · simp only [hv] at hm
      rcases hm with hm | hm <;> repeat' split at hm
      all_goals
        first
        | (injection hm with h; subst h; decide)
        | (injection hm; done)
        | (injection hm with h; injection h with h2; subst h2; decide)
        | (injection hm with h; injection h; done)
        | (rename_i aeq; injection aeq with h2; subst h2; decide)
        | (rename_i aeq; injection aeq; done)
        | (rename_i aeq; subst aeq; decide)
        | (exact insertIntoGroups_reason_ne _ _ _ m (Or.inl hm))
        | (exact insertIntoGroups_reason_ne _ _ _ m (Or.inr hm))
        | (rename_i aeq; injection aeq with h2; subst h2; decide)
        | (rename_i aeq; injection aeq; done)
        | (rename_i aeq; subst aeq; decide)

theorem applyEnhancementPatch_reason_ne (env : TextPatchEnv) (p : Patch)
    (s : ResumeSections) (m : String)
    (hm : applyEnhancementPatch env p s = Except.ok (PatchOutcome.failed m) ∨
      applyEnhancementPatch env p s = Except.error m) : m ≠ "" := by
  unfold applyEnhancementPatch at hm
  rcases hgd : getDetails p with e | d
  · simp only [hgd] at hm
    rcases hm with hm | hm
    · injection hm
    · injection hm with h; subst h; exact getDetails_error_ne p e hgd
  · simp only [hgd] at hm
    rcases hv : reqString d.action with e | action
    · simp only [hv] at hm
      rcases hm with hm | hm
      · injection hm
      · injection hm with h; subst h; exact reqString_error_ne d.action e hv
    · simp only [hv] at hm
      rcases hm with hm | hm <;> repeat' split at hm
      all_goals
        first
        | (injection hm with h; subst h; decide)
        | (injection hm; done)
        | (injection hm with h; injection h with h2; subst h2; decide)
        | (injection hm with h; injection h; done)
        | (rename_i aeq; injection aeq with h2; subst h2; decide)
        | (rename_i aeq; injection aeq; done)
        | (rename_i aeq; subst aeq; decide)

theorem applyExperiencePatch_reason_ne (p : Patch) (s : ResumeSections) (m : String)
    (hm : applyExperiencePatch p s = Except.ok (PatchOutcome.failed m) ∨
      applyExperiencePatch p s = Except.error m) : m ≠ "" := by
  unfold applyExperiencePatch at hm
  rcases hgd : getDetails p with e | d
  · simp only [hgd] at hm
    rcases hm with hm | hm
    · injection hm
    · injection hm with h; subst h; exact getDetails_error_ne p e hgd
  · simp only [hgd] at hm
    rcases hv : reqString d.action with e | action
    · simp only [hv] at hm
      rcases hm with hm | hm
      · injection hm
      · injection hm with h; subst h; exact reqString_error_ne d.action e hv
    · simp only [hv] at hm
      rcases hm with hm | hm <;> repeat' split at hm
      all_goals
        first
        | (injection hm with h; subst h; decide)
        | (injection hm; done)
        | (injection hm with h; injection h with h2; subst h2; decide)
        | (injection hm with h; injection h; done)
        | (rename_i aeq; injection aeq with h2; subst h2; decide)
        | (rename_i aeq; injection aeq; done)
        | (rename_i aeq; subst aeq; decide)

theorem applyExperienceAlignmentPatch_reason_ne (p : Patch) (s : ResumeSections)
    (m : String)
    (hm : applyExperienceAlignmentPatch p s = Except.ok (PatchOutcome.failed m) ∨
      applyExperienceAlignmentPatch p s = Except.error m) : m ≠ "" := by
  unfold applyExperienceAlignmentPatch at hm
  rcases hgd : getDetails p with e | d
  · simp only [hgd] at hm
    rcases hm with hm | hm
    · injection hm
    · injection hm with h; subst h; exact getDetails_error_ne p e hgd
  · simp only [hgd] at hm
    rcases hm with hm | hm
    · injection hm with h; injection h
    · injection hm

theorem applyRoleEnhancementPatch_reason_ne (p : Patch) (s : ResumeSections)
    (m : String)
    (hm : applyRoleEnhancementPatch p s = Except.ok (PatchOutcome.failed m) ∨
      applyRoleEnhancementPatch p s = Except.error m) : m ≠ "" := by
  unfold applyRoleEnhancementPatch at hm
  rcases hgd : getDetails p with e | d
  · simp only [hgd] at hm
    rcases hm with hm | hm
    · injection hm
    · injection hm with h; subst h; exact getDetails_error_ne p e hgd
  · simp only [hgd] at hm
    rcases hm with hm | hm
    · injection hm with h; injection h
    · injection hm

theorem applyContentPatch_reason_ne (p : Patch) (s : ResumeSections) (m : String)
    (hm : applyContentPatch p s = Except.ok (PatchOutcome.failed m) ∨
      applyContentPatch p s = Except.error m) : m ≠ "" := by
  unfold applyContentPatch at hm
  rcases hgd : getDetails p with e | d
  · simp only [hgd] at hm
    rcases hm with hm | hm
    · injection hm
    · injection hm with h; subst h; exact getDetails_error_ne p e hgd
  · simp only [hgd] at hm
    rcases hv : reqString d.action with e | action
    · simp only [hv] at hm
      rcases hm with hm | hm
      · injection hm
      · injection hm with h; subst h; exact reqString_error_ne d.action e hv
    · simp only [hv] at hm
      rcases hm with hm | hm <;> repeat' split at hm
      all_goals
        first
        | (injection hm with h; subst h; decide)
        | (injection hm; done)
        | (injection hm with h; injection h with h2; subst h2; decide)
        | (injection hm with h; injection h; done)
        | (rename_i aeq; injection aeq with h2; subst h2; decide)
        | (rename_i aeq; injection aeq; done)
        | (rename_i aeq; subst aeq; decide)

theorem applyRecommendationPatch_reason_ne (p : Patch) (s : ResumeSections)
    (m : String)
    (hm : applyRecommendationPatch p s = Except.ok (PatchOutcome.failed m) ∨
      applyRecommendationPatch p s = Except.error m) : m ≠ "" := by
  unfold applyRecommendationPatch at hm
  rcases hgd : getDetails p with e | d
  · simp only [hgd] at hm
    rcases hm with hm | hm
    · injection hm
    · injection hm with h; subst h; exact getDetails_error_ne p e hgd
  · simp only [hgd] at hm
    rcases hv : reqString d.value with e | recommendation
    · simp only [hv] at hm
      rcases hm with hm | hm
      · injection hm
      · injection hm with h; subst h; exact reqString_error_ne d.value e hv
    · simp only [hv] at hm
      rcases hm with hm | hm <;> repeat' split at hm
      all_goals
        first
        | (injection hm with h; subst h; decide)
        | (injection hm; done)
        | (injection hm with h; injection h with h2; subst h2; decide)
        | (injection hm with h; injection h; done)
        | (rename_i aeq; injection aeq with h2; subst h2; decide)
        | (rename_i aeq; injection aeq; done)
        | (rename_i aeq; subst aeq; decide)

theorem applySinglePatch_reason_ne (env : TextPatchEnv) (p : Patch) (s : ResumeSections)
    (m : String)
    (hm : applySinglePatch env p s = Except.ok (PatchOutcome.failed m) ∨
      applySinglePatch env p s = Except.error m) : m ≠ "" := by
  unfold applySinglePatch at hm
  rcases hm with hm | hm <;> repeat' split at hm
  all_goals
    first
    | (exact applySkillPatch_reason_ne _ _ _ m (Or.inl hm))
    | (exact applySkillPatch_reason_ne _ _ _ m (Or.inr hm))
    | (exact applyEnhancementPatch_reason_ne _ _ _ m (Or.inl hm))
    | (exact applyEnhancementPatch_reason_ne _ _ _ m (Or.inr hm))
    | (exact applyExperiencePatch_reason_ne _ _ m (Or.inl hm))
    | (exact applyExperiencePatch_reason_ne _ _ m (Or.inr hm))
    | (exact applyExperienceAlignmentPatch_reason_ne _ _ m (Or.inl hm))
    | (exact applyExperienceAlignmentPatch_reason_ne _ _ m (Or.inr hm))
    | (exact applyRoleEnhancementPatch_reason_ne _ _ m (Or.inl hm))
    | (exact applyRoleEnhancementPatch_reason_ne _ _ m (Or.inr hm))
    | (exact applyContentPatch_reason_ne _ _ m (Or.inl hm))
    | (exact applyContentPatch_reason_ne _ _ m (Or.inr hm))
    | (exact applyKeywordPatch_reason_ne _ _ _ m (Or.inl hm))
    | (exact applyKeywordPatch_reason_ne _ _ _ m (Or.inr hm))
    | (exact applyRecommendationPatch_reason_ne _ _ m (Or.inl hm))
    | (exact applyRecommendationPatch_reason_ne _ _ m (Or.inr hm))
    | (injection hm; done)
    | (injection hm with h; injection h with h2; subst h2
       intro hc
       have hlen := congrArg String.length hc
       simp [String.length_append] at hlen
       exact absurd hlen.1 (by decide))
    | (rename_i aeq; injection aeq; done)
    | (rename_i aeq; injection aeq with h2; subst h2
       intro hc
       have hlen := congrArg String.length hc
       simp [String.length_append] at hlen
       exact absurd hlen.1 (by decide))

/-! ### The textual batch processes every proposal, never aborts -/

theorem applyPatchesToResumeAux_spec (env : Nat → TextPatchEnv) :
    ∀ (ps : List Patch) (i : Nat) (sections : ResumeSections),
      ((applyPatchesToResumeAux env i sections ps).appliedPatches.length
          + (applyPatchesToResumeAux env i sections ps).failedPatches.length = ps.length) ∧
        List.Perm ((applyPatchesToResumeAux env i sections ps).appliedPatches
            ++ (applyPatchesToResumeAux env i sections ps).failedPatches.map Prod.fst) ps ∧
        ∀ pr ∈ (applyPatchesToResumeAux env i sections ps).failedPatches, pr.2 ≠ "" := by
  intro ps
  induction ps with
  | nil =>
    intro i s
    exact ⟨rfl, List.Perm.refl _, by intro pr h; simp [applyPatchesToResumeAux] at h⟩
  | cons p rest ih =>
    intro i s
    rcases houtcome : applySinglePatch (env i) p s with em | outcome
    · have hred : applyPatchesToResumeAux env i s (p :: rest)
          = ⟨(applyPatchesToResumeAux env (i + 1) s rest).updatedSections,
             (applyPatchesToResumeAux env (i + 1) s rest).appliedPatches,
             (p, em) :: (applyPatchesToResumeAux env (i + 1) s rest).failedPatches⟩ := by
        simp only [applyPatchesToResumeAux, houtcome]
      rw [hred]
      obtain ⟨ih1, ih2, ih3⟩ := ih (i + 1) s
      refine ⟨?_, ?_, ?_⟩
      · simp only [List.length_cons]; omega
      · simp only [List.map_cons]
        exact List.Perm.trans List.perm_middle (ih2.cons p)
      · intro pr hpr
        rcases List.mem_cons.mp hpr with rfl | hpr2
        · exact applySinglePatch_reason_ne (env i) p s em (Or.inr houtcome)
        · exact ih3 pr hpr2
    · cases outcome with
      | applied sec content =>
        have hred : applyPatchesToResumeAux env i s (p :: rest)
            = ⟨(applyPatchesToResumeAux env (i + 1) (s.put sec content) rest).updatedSections,
               p :: (applyPatchesToResumeAux env (i + 1) (s.put sec content) rest).appliedPatches,
               (applyPatchesToResumeAux env (i + 1) (s.put sec content) rest).failedPatches⟩ := by
          simp only [applyPatchesToResumeAux, houtcome]
        rw [hred]
        obtain ⟨ih1, ih2, ih3⟩ := ih (i + 1) (s.put sec content)
        refine ⟨?_, ?_, ?_⟩
        · simp only [List.length_cons]; omega
        · simpa using ih2.cons p
        · exact ih3
      | failed reason =>
        have hred : applyPatchesToResumeAux env i s (p :: rest)
            = ⟨(applyPatchesToResumeAux env (i + 1) s rest).updatedSections,
               (applyPatchesToResumeAux env (i + 1) s rest).appliedPatches,
               (p, reason) :: (applyPatchesToResumeAux env (i + 1) s rest).failedPatches⟩ := by
          simp only [applyPatchesToResumeAux, houtcome]
        rw [hred]
        obtain ⟨ih1, ih2, ih3⟩ := ih (i + 1) s
        refine ⟨?_, ?_, ?_⟩
        · simp only [List.length_cons]; omega
        · simp only [List.map_cons]
          exact List.Perm.trans List.perm_middle (ih2.cons p)
        · intro pr hpr
          rcases List.mem_cons.mp hpr with rfl | hpr2
          · exact applySinglePatch_reason_ne (env i) p s reason (Or.inl houtcome)
          · exact ih3 pr hpr2

/-! ### Claim C8 -/

/-- C8: a per-proposal failure never aborts a Patcher batch.  In both the
textual pass and the structural pass: every proposal of the batch is
processed and ends in exactly one of the applied / failed lists (their
lengths sum to the batch size, and applied + failed is a permutation of the
input batch), every failed proposal is paired with a non-empty reason string,
and the batch function is total — a thrown per-proposal error is caught and
recorded, never propagated (the per-patch try/catch of the source is the
explicit `Except` case split of the embedding). -/
theorem C8_per_proposal_failures_are_local (env : Nat → TextPatchEnv)
    (resp : Nat → ClassifierResp) (patches : List Patch)
    (sections : ResumeSections) (doc : JsonResume) :
    ((applyPatchesToResume env patches sections).appliedPatches.length
        + (applyPatchesToResume env patches sections).failedPatches.length
          = patches.length ∧
      List.Perm ((applyPatchesToResume env patches sections).appliedPatches
          ++ (applyPatchesToResume env patches sections).failedPatches.map Prod.fst)
        patches ∧
      ∀ pr ∈ (applyPatchesToResume env patches sections).failedPatches, pr.2 ≠ "") ∧
    ((applyPatchesToJsonResume resp patches doc).appliedPatches.length
        + (applyPatchesToJsonResume resp patches doc).failedPatches.length
          = patches.length ∧
      List.Perm ((applyPatchesToJsonResume resp patches doc).appliedPatches
          ++ (applyPatchesToJsonResume resp patches doc).failedPatches.map Prod.fst)
        patches ∧
      ∀ pr ∈ (applyPatchesToJsonResume resp patches doc).failedPatches, pr.2 ≠ "") :=
  ⟨applyPatchesToResumeAux_spec env patches 0 sections,
   applyPatchesToJsonResumeAux_spec resp patches 0 doc⟩

/-! ### Claim C7 (amended general statement) -/

theorem buildOps_align_work (resp : ClassifierResp) (p : Patch) (d : PatchDetails)
    (v : String) (doc : JsonResume) (l : List WorkEntry) (hs : List String)
    (ht : p.type = "align_experience" ∨ p.type = "role_enhancement")
    (hd : p.details = some d) (hv : d.value = some v) (hvne : v ≠ "")
    (hw : doc.work = some l) (hlen : 0 < l.length)
    (hh : (l.getD (l.length - 1) {}).highlights = some hs) :
    buildJsonPatchOpsForPatch resp p doc
      = (doc, [JsonPatchOp.addWorkHighlight (l.length - 1) v]) := by
  have hlen0 : ¬ l.length = 0 := Nat.pos_iff_ne_zero.mp hlen
  have hh2 : (l[l.length - 1]?.getD ({} : WorkEntry)).highlights = some hs := by
    rw [← List.getD_eq_getElem?_getD]; exact hh
  unfold buildJsonPatchOpsForPatch
  rcases ht with ht | ht <;>
    simp [ht, hd, hv, hw, hh, hvne, hlen0] <;>
    simp [hh2]

theorem buildOps_align_nowork (resp : ClassifierResp) (p : Patch) (d : PatchDetails)
    (v : String) (doc : JsonResume)
    (ht : p.type = "align_experience" ∨ p.type = "role_enhancement")
    (hd : p.details = some d) (hv : d.value = some v) (hvne : v ≠ "")
    (hw : doc.work = none) :
    buildJsonPatchOpsForPatch resp p doc = (doc, []) := by
  unfold buildJsonPatchOpsForPatch
  rcases ht with ht | ht <;>
    simp [ht, hd, hv, hw, hvne]

/-- C7, amended.  An align-experience or role-enhancement proposal with a
non-empty value: (1) when the Document has a last work entry with a
highlights array, the structural pass appends the value as a new entry to
that last entry's highlights and marks the proposal applied; (2) when the
Document has no work array, the structural pass records the proposal as
failed ("No JSON Patch ops available") — but, contrary to the claim's "not
applied by any other route", (3) the textual pass always applies such a
proposal to the experience section, and `applyPatchesNode` feeds every
structurally-failed proposal to that pass (see the counterexample on
`applyPatchesNodeCore`). -/
theorem C7_align_role_routes (resp : ClassifierResp) (env : TextPatchEnv)
    (p : Patch) (d : PatchDetails) (v : String)
    (ht : p.type = "align_experience" ∨ p.type = "role_enhancement")
    (hjp : p.jsonPatch = none)
    (hd : p.details = some d) (hv : d.value = some v) (hvne : v ≠ "") :
    (∀ (doc : JsonResume) (l : List WorkEntry) (hs : List String),
        doc.work = some l → 0 < l.length →
        (l.getD (l.length - 1) {}).highlights = some hs →
        applyOnePatchToJson resp p doc
          = ({ doc with work := some (l.set (l.length - 1)
              { l.getD (l.length - 1) {} with highlights := some (hs ++ [v]) }) },
             none)) ∧
    (∀ doc : JsonResume, doc.work = none →
        applyOnePatchToJson resp p doc = (doc, some "No JSON Patch ops available")) ∧
    (∀ s : ResumeSections, ∃ t : String,
        applySinglePatch env p s
          = Except.ok (PatchOutcome.applied SectionName.experience t)) := by
  refine ⟨?_, ?_, ?_⟩
  · intro doc l hs hw hlen hh
    have hidx : l.length - 1 < l.length := Nat.sub_lt hlen Nat.one_pos
    unfold applyOnePatchToJson
    simp only [hjp]
    rw [buildOps_align_work resp p d v doc l hs ht hd hv hvne hw hlen hh]
    show applyJsonPatchOps doc [JsonPatchOp.addWorkHighlight (l.length - 1) v] = _
    unfold applyJsonPatchOps applyJsonPatchOp
    simp only [hw, if_pos hidx, hh]
    rfl
  · intro doc hw
    unfold applyOnePatchToJson
    simp only [hjp]
    rw [buildOps_align_nowork resp p d v doc ht hd hv hvne hw]
    rfl
  · intro s
    unfold applySinglePatch
    rcases ht with ht | ht
    · refine ⟨(if d.action = some "emphasize_role_relevance" then
          s.experience ++ " (Relevant to target role: " ++ d.value.getD "undefined" ++ ")"
        else
          s.experience ++ ". " ++ d.value.getD "undefined"), ?_⟩
      simp only [ht]
      rw [if_neg (by decide), if_neg (by decide), if_neg (by decide), if_pos trivial]
      unfold applyExperienceAlignmentPatch
      simp only [getDetails, hd]
    · refine ⟨s.experience ++ ". " ++ d.value.getD "undefined", ?_⟩
      simp only [ht]
      rw [if_neg (by decide), if_neg (by decide), if_neg (by decide),
        if_neg (by decide), if_pos trivial]
      unfold applyRoleEnhancementPatch
      simp only [getDetails, hd]

def acmeWorkEntry : WorkEntry :=
  { position := some "Engineer", company := some "Acme",
    summary := some "Built services", highlights := some ["Shipped v1"] }

def acmeWorkDoc : JsonResume := { work := some [acmeWorkEntry] }

theorem C7_align_role_routes_witness :
    applyOnePatchToJson ClassifierResp.err alignPatch acmeWorkDoc
        = ({ acmeWorkDoc with work := some ([acmeWorkEntry].set 0
            { acmeWorkEntry with
              highlights := some (["Shipped v1"] ++ ["Led Kubernetes migration"]) }) },
           none) ∧
      applyOnePatchToJson ClassifierResp.err alignPatch noWorkDoc
        = (noWorkDoc, some "No JSON Patch ops available") :=
  ⟨(C7_align_role_routes ClassifierResp.err {} alignPatch
      { action := some "add_technology_mention", value := some "Led Kubernetes migration" }
      "Led Kubernetes migration" (Or.inl rfl) rfl rfl rfl (by decide)).1
      acmeWorkDoc [acmeWorkEntry] ["Shipped v1"] rfl (by decide) rfl,
   (C7_align_role_routes ClassifierResp.err {} alignPatch
      { action := some "add_technology_mention", value := some "Led Kubernetes migration" }
      "Led Kubernetes migration" (Or.inl rfl) rfl rfl rfl (by decide)).2.1
      noWorkDoc rfl⟩


/-! ## Fetch-JD node (src/nodes/fetch-jd.js) -/

/-- JS object property assignment on a string-keyed record: replace in place
if the key exists, append otherwise. -/
def updateAssoc : List (String × String) → String → String → List (String × String)
  | [], k, v => [(k, v)]
  | (k2, v2) :: rest, k, v =>
    if k2 = k then (k2, v) :: rest else (k2, v2) :: updateAssoc rest k v

/-- `if (currentContent.length > 0) sections[currentSection] = currentContent.join('\n').trim()`. -/
def jdFlush (sections : List (String × String)) (cur : String)
    (content : List String) : List (String × String) :=
  if content.length > 0 then updateAssoc sections cur (jsTrim (jsJoin "\n" content))
  else sections

/-- The `for (const line of lines)` loop of `extractJDSections`. -/
def extractJDSectionsLoop (sections : List (String × String)) (cur : String)
    (content : List String) : List String → List (String × String)
  | [] => jdFlush sections cur content
  | line :: rest =>
    if jsIncludes (jsToLower line) "requirements"
        || jsIncludes (jsToLower line) "qualifications" then
      extractJDSectionsLoop (jdFlush sections cur content) "requirements" [] rest
    else if jsIncludes (jsToLower line) "responsibilities"
        || jsIncludes (jsToLower line) "duties" then
      extractJDSectionsLoop (jdFlush sections cur content) "responsibilities" [] rest
    else if jsIncludes (jsToLower line) "skills"
        || jsIncludes (jsToLower line) "technologies" then
      extractJDSectionsLoop (jdFlush sections cur content) "skills" [] rest
    else if jsIncludes (jsToLower line) "experience"
        || jsIncludes (jsToLower line) "years" then
      extractJDSectionsLoop (jdFlush sections cur content) "experience" [] rest
    else
      extractJDSectionsLoop sections cur (content ++ [line]) rest

/-- `extractJDSections(text)` of fetch-jd.js: heading detection over the
trimmed non-empty lines, starting in the `overview` section. -/
def extractJDSections (text : String) : List (String × String) :=
  extractJDSectionsLoop [] "overview" []
    (((jsSplitChar (Char.ofNat 10) text).map jsTrim).filter (fun l => l.length > 0))

/-- The `jobData` record built by `fetchJDNode` (absent keys are `none`;
`length` is carried only when content was obtained). -/
structure JobData where
  source : String := ""
  url : Option String := none
  content : Option String := none
  fetched : Bool := false
  len : Option Nat := none
  error : Option String := none
  sections : Option (List (String × String)) := none
deriving DecidableEq, Repr

/-- The slice of the workflow state that `fetchJDNode` reads or writes,
plus the `errors` list and `retry_count` the conditional edges inspect. -/
structure FetchState where
  jd_text : Option String := none
  jd_url : Option String := none
  jobDescription : Option JobData := none
  errors : List String := []
  error : Option String := none
  retry_count : Nat := 0
deriving DecidableEq, Repr

/-- The URL branch and the final `throw new ProcessingError(...)` of
`fetchJDNode`, outer catch included: `isUrl` models `isValidUrl` (platform
URL parsing), `fetchHtml` the `fetch` + `res.ok` check + `res.text()`
sequence (`Except.error` is the caught exception's message), `h2t` the
`htmlToText` helper of file-utils.js. -/
def fetchJDUrlOrFail (isUrl : String → Bool)
    (fetchHtml : String → Except String String) (h2t : String → String)
    (st : FetchState) : FetchState :=
  match st.jd_url with
  | none => { st with error := some "No job description provided" }
  | some u =>
    if u = "" then { st with error := some "No job description provided" }
    else if isUrl u then
      match fetchHtml u with
      | Except.ok html =>
        { st with
          jobDescription := some
            { source := "url", url := some u, content := some (jsTrim (h2t html)),
              fetched := true, len := some (jsTrim (h2t html)).length,
              sections := some (extractJDSections (jsTrim (h2t html))) },
          jd_text := some (jsTrim (h2t html)) }
      | Except.error msg =>
        { st with
          jobDescription := some
            { source := "url", url := some u, content := none, fetched := false,
              error := some msg } }
    else { st with error := some "No job description provided" }

/-- `fetchJDNode(state)` (fetch-jd.js lines 5-63).  The text branch fires
when `jd_text` is a non-empty-after-trim string; otherwise the URL branch
or the ProcessingError path runs, and the outer catch turns the throw into
`{ ...state, error: message }`. -/
def fetchJDNode (isUrl : String → Bool)
    (fetchHtml : String → Except String String) (h2t : String → String)
    (st : FetchState) : FetchState :=
  match st.jd_text with
  | some t =>
    if (jsTrim t).length > 0 then
      { st with
        jobDescription := some
          { source := "text", content := some (jsTrim t), fetched := true,
            len := some (jsTrim t).length,
            sections := some (extractJDSections (jsTrim t)) },
        jd_text := some (jsTrim t) }
    else fetchJDUrlOrFail isUrl fetchHtml h2t st
  | none => fetchJDUrlOrFail isUrl fetchHtml h2t st

theorem fetchJDUrlOrFail_errors (isUrl : String → Bool)
    (fetchHtml : String → Except String String) (h2t : String → String)
    (st : FetchState) :
    (fetchJDUrlOrFail isUrl fetchHtml h2t st).errors = st.errors ∧
      (fetchJDUrlOrFail isUrl fetchHtml h2t st).retry_count = st.retry_count := by
  unfold fetchJDUrlOrFail
  rcases hu : st.jd_url with _ | u <;> simp only [hu]
  · exact ⟨trivial, trivial⟩
  · split
    · exact ⟨rfl, rfl⟩
    · split
      · split <;> exact ⟨rfl, rfl⟩
      · exact ⟨rfl, rfl⟩

theorem fetchJDUrlOrFail_noJD (isUrl : String → Bool)
    (fetchHtml : String → Except String String) (h2t : String → String)
    (st : FetchState)
    (hnu : ∀ u, st.jd_url = some u → u = "" ∨ isUrl u = false) :
    fetchJDUrlOrFail isUrl fetchHtml h2t st
      = { st with error := some "No job description provided" } := by
  unfold fetchJDUrlOrFail
  rcases hu : st.jd_url with _ | u <;> simp only [hu]
  by_cases hu0 : u = ""
  · rw [if_pos hu0]
  · rw [if_neg hu0]
    rcases hnu u hu with h | h
    · exact absurd h hu0
    · rw [if_neg (by simp [h])]

/-- C10: the fetch-JD stage is total and keeps its failures out of the
`errors` channel.  For every input state (and every behaviour of the
platform URL parser, of `fetch`, and of `htmlToText`): the `errors` list and
`retry_count` the workflow's conditional edges inspect are returned
unchanged; with no usable `jd_text` and no usable URL the node returns the
state with only the singular `error` field set ("No job description
provided", the caught ProcessingError); and a URL fetch failure is recorded
only as a `jobDescription` with `fetched := false` and the error message. -/
theorem C10_fetch_jd_total_and_error_isolated (isUrl : String → Bool)
    (fetchHtml : String → Except String String) (h2t : String → String)
    (st : FetchState) :
    ((fetchJDNode isUrl fetchHtml h2t st).errors = st.errors ∧
      (fetchJDNode isUrl fetchHtml h2t st).retry_count = st.retry_count) ∧
    ((∀ t, st.jd_text = some t → jsTrim t = "") →
      (∀ u, st.jd_url = some u → u = "" ∨ isUrl u = false) →
      fetchJDNode isUrl fetchHtml h2t st
        = { st with error := some "No job description provided" }) ∧
    (∀ u msg, (∀ t, st.jd_text = some t → jsTrim t = "") →
      st.jd_url = some u → u ≠ "" → isUrl u = true →
      fetchHtml u = Except.error msg →
      fetchJDNode isUrl fetchHtml h2t st
        = { st with
            jobDescription := some
              { source := "url", url := some u, content := none, fetched := false,
                error := some msg } }) := by
  refine ⟨?_, ?_, ?_⟩
  · unfold fetchJDNode
    rcases htx : st.jd_text with _ | t <;> simp only [htx]
    · exact fetchJDUrlOrFail_errors isUrl fetchHtml h2t st
    · split
      · exact ⟨rfl, rfl⟩
      · exact fetchJDUrlOrFail_errors isUrl fetchHtml h2t st
  · intro hnt hnu
    unfold fetchJDNode
    rcases htx : st.jd_text with _ | t <;> simp only [htx]
    · have h2 := fetchJDUrlOrFail_noJD isUrl fetchHtml h2t st hnu
      rw [htx] at h2
      exact h2
    · rw [if_neg (by simp [hnt t htx])]
      have h2 := fetchJDUrlOrFail_noJD isUrl fetchHtml h2t st hnu
      rw [htx] at h2
      exact h2
  · intro u msg hnt hu hune hvalid hf
    unfold fetchJDNode
    have hurl : fetchJDUrlOrFail isUrl fetchHtml h2t st
        = { st with
            jobDescription := some
              { source := "url", url := some u, content := none, fetched := false,
                error := some msg } } := by
      unfold fetchJDUrlOrFail
      simp only [hu]
      rw [if_neg hune, if_pos hvalid]
      simp only [hf]
    rcases htx : st.jd_text with _ | t <;> simp only [htx]
    · rw [htx] at hurl
      exact hurl
    · rw [if_neg (by simp [hnt t htx])]
      rw [htx] at hurl
      exact hurl

def urlOnlyState : FetchState :=
  { jd_url := some "http://jobs.example/role", errors := ["earlier failure"] }

theorem C10_fetch_jd_total_and_error_isolated_witness :
    fetchJDNode (fun _ => true) (fun _ => Except.error "HTTP 500") (fun s => s)
        urlOnlyState
      = { urlOnlyState with
          jobDescription := some
            { source := "url", url := some "http://jobs.example/role", content := none,
              fetched := false, error := some "HTTP 500" } } ∧
      (fetchJDNode (fun _ => true) (fun _ => Except.error "HTTP 500") (fun s => s)
          urlOnlyState).errors = ["earlier failure"] :=
  ⟨(C10_fetch_jd_total_and_error_isolated (fun _ => true)
      (fun _ => Except.error "HTTP 500") (fun s => s) urlOnlyState).2.2
      "http://jobs.example/role" "HTTP 500" (fun t ht => nomatch ht) rfl
      (by decide) rfl rfl,
   (C10_fetch_jd_total_and_error_isolated (fun _ => true)
      (fun _ => Except.error "HTTP 500") (fun s => s) urlOnlyState).1.1⟩


end ResumePatch
